import Mathlib

/-!
The sweep / fixed-frequency repetition controller of `freq_sweep_rx_tx`.

A shallow embedding of `scm_v3c/applications/freq_sweep_rx_tx/freq_sweep_rx_tx.c`.

`repeat_rx_tx` is embedded as a transition system over its control points: one
transition per statement (or per loop header part) of the C function.  The
external calls it makes (`send_packet`, `receive_packet`, `low_power_mode`,
`normal_power_mode`) are recorded, in order, in a trace.  The `printf`
diagnostics touch none of the modelled state and are left out.

Machine integers: the `uint8_t` variables are naturals reduced `% 256` at every
arithmetic update; the `int` variables are integers reduced into the 32-bit
two's-complement range by `wrapInt32` at every arithmetic update.
-/

namespace FreqSweep

/-! ## Types and constants -/

/-- Modelled from the spec: `radio_mode_t` is declared in `radio.h`, which is not part of the
sources at hand; the controller's direction is one of TRANSMIT (`TX`) and RECEIVE (`RX`). -/
inductive radio_mode_t where
  | TX
  | RX
  deriving DecidableEq, Repr

/-- The enumeration `repeat_mode_t` (lines 48-51). -/
inductive repeat_mode_t where
  | SWEEP
  | FIXED
  deriving DecidableEq, Repr

abbrev FIXED_LC_COARSE_RX : Nat := 22
abbrev FIXED_LC_MID_RX : Nat := 22
abbrev FIXED_LC_FINE_RX : Nat := 22
abbrev FIXED_LC_COARSE_TX : Nat := 22
abbrev FIXED_LC_MID_TX : Nat := 23
abbrev FIXED_LC_FINE_TX : Nat := 4
abbrev NUMPKT_PER_CFG : Int := 1
abbrev STEPS_PER_CONFIG : Nat := 32
abbrev TX_PACKET_LENGTH : Nat := 4

/-- The global `uint8_t tx_packet[TX_PACKET_LENGTH]` (line 57): four bytes. -/
structure Packet where
  b0 : Nat
  b1 : Nat
  b2 : Nat
  b3 : Nat
  deriving DecidableEq, Repr

/-- The calls `repeat_rx_tx` makes into the hardware interface, with their arguments.
For `send_packet` the buffer argument is recorded by its contents at the call. -/
inductive Event where
  | low_power_mode
  | normal_power_mode
  | receive_packet (coarse mid fine : Nat)
  | send_packet (coarse mid fine : Nat) (packet : Packet) (length : Nat)
  deriving DecidableEq, Repr

/-- Reduction of an integer into the range of a 32-bit two's-complement `int`. -/
def wrapInt32 (v : Int) : Int := (v + 2147483648) % 4294967296 - 2147483648

/-- The conversion `(uint8_t) v` of an `int`. -/
def toUint8 (v : Int) : Nat := (v % 256).toNat

/-- The six `uint8_t` range bounds of `repeat_rx_tx` (lines 127-133). -/
structure Range where
  cfg_coarse_start : Nat
  cfg_mid_start : Nat
  cfg_fine_start : Nat
  cfg_coarse_stop : Nat
  cfg_mid_stop : Nat
  cfg_fine_stop : Nat
  deriving DecidableEq, Repr

/-- Range derivation (lines 145-170). -/
def tuning_range (radio_mode : radio_mode_t) (repeat_mode : repeat_mode_t) : Range :=
  if repeat_mode = repeat_mode_t.FIXED then
    let cfg_coarse_start :=
      if radio_mode = radio_mode_t.TX then FIXED_LC_COARSE_TX else FIXED_LC_COARSE_RX
    let cfg_mid_start :=
      if radio_mode = radio_mode_t.TX then FIXED_LC_MID_TX else FIXED_LC_MID_RX
    let cfg_fine_start :=
      if radio_mode = radio_mode_t.TX then FIXED_LC_FINE_TX else FIXED_LC_FINE_RX
    { cfg_coarse_start := cfg_coarse_start
      cfg_mid_start := cfg_mid_start
      cfg_fine_start := cfg_fine_start
      cfg_coarse_stop := (cfg_coarse_start + 1) % 256
      cfg_mid_stop := (cfg_mid_start + 1) % 256
      cfg_fine_stop := (cfg_fine_start + 1) % 256 }
  else
    { cfg_coarse_start := 22
      cfg_mid_start := 20
      cfg_fine_start := 0
      cfg_coarse_stop := 23
      cfg_mid_stop := STEPS_PER_CONFIG
      cfg_fine_stop := STEPS_PER_CONFIG }

/-! ## The transition system of `repeat_rx_tx` -/

/-- Control points of `repeat_rx_tx` (lines 172-210). -/
inductive Loc where
  /-- line 172, `while(1)` and the initialisation `cfg_coarse=cfg_coarse_start` -/
  | while_top
  /-- line 174, test `cfg_coarse<cfg_coarse_stop` -/
  | coarse_test
  /-- line 175, initialisation `cfg_mid=cfg_mid_start` -/
  | mid_init
  /-- line 175, test `cfg_mid<cfg_mid_stop` -/
  | mid_test
  /-- line 176, initialisation `cfg_fine=cfg_fine_start` -/
  | fine_init
  /-- line 176, test `cfg_fine<cfg_fine_stop` -/
  | fine_test
  /-- lines 179-183, the `SOLAR_MODE` block -/
  | solar
  /-- line 189, initialisation `i=0` -/
  | pkt_init
  /-- line 189, test `i<NUMPKT_PER_CFG` -/
  | pkt_test
  /-- lines 190-199, the radio call -/
  | radio
  /-- lines 201-204, increment of the packet counter and return test -/
  | count
  /-- line 189, `i++` -/
  | pkt_incr
  /-- line 176, `cfg_fine += 1` -/
  | fine_incr
  /-- line 175, `cfg_mid += 1` -/
  | mid_incr
  /-- line 174, `cfg_coarse++` -/
  | coarse_incr
  /-- line 203, the function has returned -/
  | returned
  deriving DecidableEq, Repr

/-- The arguments of `repeat_rx_tx` together with the build-time flag `SOLAR_MODE`. -/
structure Env where
  SOLAR_MODE : Nat
  radio_mode : radio_mode_t
  repeat_mode : repeat_mode_t
  total_packets : Int
  deriving DecidableEq, Repr

/-- The variables of `repeat_rx_tx`, the global `tx_packet`, the control point and the
trace of external calls made so far (oldest first). -/
structure State where
  loc : Loc
  cfg_coarse : Nat
  cfg_mid : Nat
  cfg_fine : Nat
  i : Int
  packet_counter : Int
  tx_packet : Packet
  trace : List Event
  deriving DecidableEq, Repr

/-- State on reaching `while(1)` (line 172): `packet_counter = 0` (line 135); the loop
variables are not yet assigned (they are written before they are read) and the global
`tx_packet` holds whatever it held on entry. -/
def init (tx_packet : Packet) : State :=
  { loc := Loc.while_top
    cfg_coarse := 0
    cfg_mid := 0
    cfg_fine := 0
    i := 0
    packet_counter := 0
    tx_packet := tx_packet
    trace := [] }

/-- One transition of `repeat_rx_tx`. -/
def step (env : Env) (s : State) : State :=
  let r := tuning_range env.radio_mode env.repeat_mode
  match s.loc with
  | Loc.while_top => { s with cfg_coarse := r.cfg_coarse_start, loc := Loc.coarse_test }
  | Loc.coarse_test =>
    if s.cfg_coarse < r.cfg_coarse_stop then { s with loc := Loc.mid_init }
    else { s with loc := Loc.while_top }
  | Loc.mid_init => { s with cfg_mid := r.cfg_mid_start, loc := Loc.mid_test }
  | Loc.mid_test =>
    if s.cfg_mid < r.cfg_mid_stop then { s with loc := Loc.fine_init }
    else { s with loc := Loc.coarse_incr }
  | Loc.fine_init => { s with cfg_fine := r.cfg_fine_start, loc := Loc.fine_test }
  | Loc.fine_test =>
    if s.cfg_fine < r.cfg_fine_stop then { s with loc := Loc.solar }
    else { s with loc := Loc.mid_incr }
  | Loc.solar =>
    if env.SOLAR_MODE ≠ 0 then
      -- low_power_mode(); for (i = 0; i < 2000; i++) {} normal_power_mode();
      { s with
        i := 2000
        trace := s.trace ++ [Event.low_power_mode, Event.normal_power_mode]
        loc := Loc.pkt_init }
    else { s with loc := Loc.pkt_init }
  | Loc.pkt_init => { s with i := 0, loc := Loc.pkt_test }
  | Loc.pkt_test =>
    if s.i < NUMPKT_PER_CFG then { s with loc := Loc.radio }
    else { s with loc := Loc.fine_incr }
  | Loc.radio =>
    if env.radio_mode = radio_mode_t.RX then
      { s with
        trace := s.trace ++ [Event.receive_packet s.cfg_coarse s.cfg_mid s.cfg_fine]
        loc := Loc.count }
    else
      let tx_packet : Packet :=
        { b0 := toUint8 s.packet_counter
          b1 := s.cfg_coarse
          b2 := s.cfg_mid
          b3 := s.cfg_fine }
      { s with
        tx_packet := tx_packet
        trace := s.trace ++
          [Event.send_packet s.cfg_coarse s.cfg_mid s.cfg_fine tx_packet TX_PACKET_LENGTH]
        loc := Loc.count }
  | Loc.count =>
    let packet_counter := wrapInt32 (s.packet_counter + 1)
    if packet_counter = env.total_packets then
      { s with packet_counter := packet_counter, loc := Loc.returned }
    else { s with packet_counter := packet_counter, loc := Loc.pkt_incr }
  | Loc.pkt_incr => { s with i := wrapInt32 (s.i + 1), loc := Loc.pkt_test }
  | Loc.fine_incr => { s with cfg_fine := (s.cfg_fine + 1) % 256, loc := Loc.fine_test }
  | Loc.mid_incr => { s with cfg_mid := (s.cfg_mid + 1) % 256, loc := Loc.mid_test }
  | Loc.coarse_incr => { s with cfg_coarse := (s.cfg_coarse + 1) % 256, loc := Loc.coarse_test }
  | Loc.returned => s

/-- The state after `n` transitions. -/
def run (env : Env) : Nat → State → State
  | 0, s => s
  | n + 1, s => run env n (step env s)

/-! ## The sequence of visits

Closed descriptions of a run, used to state and prove the theorems: the tuning point,
the calls and the state of each visit of the innermost loop body.  They are tied to the
transition system by `run_init`, `visit_return`, `visit_body` and `visit_next` below. -/

/-- A tuning point `(coarse, mid, fine)`. -/
abbrev Point := Nat × Nat × Nat

/-- The tuning point visited after `p` by the loop nest over the range `r`. -/
def next_point (r : Range) (p : Point) : Point :=
  if p.2.2 + 1 < r.cfg_fine_stop then (p.1, p.2.1, p.2.2 + 1)
  else if p.2.1 + 1 < r.cfg_mid_stop then (p.1, p.2.1 + 1, r.cfg_fine_start)
  else if p.1 + 1 < r.cfg_coarse_stop then (p.1 + 1, r.cfg_mid_start, r.cfg_fine_start)
  else (r.cfg_coarse_start, r.cfg_mid_start, r.cfg_fine_start)

/-- The tuning point of visit number `k` (from 0). -/
def point_seq (r : Range) : Nat → Point
  | 0 => (r.cfg_coarse_start, r.cfg_mid_start, r.cfg_fine_start)
  | k + 1 => next_point r (point_seq r k)

/-- The tuning point of visit number `k` of a run with environment `env`. -/
def visit_point (env : Env) (k : Nat) : Point :=
  point_seq (tuning_range env.radio_mode env.repeat_mode) k

/-- The radio call of visit number `k`. -/
def radio_event (env : Env) (k : Nat) : Event :=
  let p := visit_point env k
  if env.radio_mode = radio_mode_t.RX then Event.receive_packet p.1 p.2.1 p.2.2
  else
    Event.send_packet p.1 p.2.1 p.2.2
      { b0 := toUint8 (wrapInt32 k), b1 := p.1, b2 := p.2.1, b3 := p.2.2 } TX_PACKET_LENGTH

/-- The external calls of visit number `k`. -/
def visit_events (env : Env) (k : Nat) : List Event :=
  (if env.SOLAR_MODE ≠ 0 then [Event.low_power_mode, Event.normal_power_mode] else [])
    ++ [radio_event env k]

/-- The external calls of the first `k` visits. -/
def visits_trace (env : Env) : Nat → List Event
  | 0 => []
  | k + 1 => visits_trace env k ++ visit_events env k

/-- The contents of `tx_packet` after `k` visits. -/
def packet_after (env : Env) (tx_packet : Packet) : Nat → Packet
  | 0 => tx_packet
  | k + 1 =>
    if env.radio_mode = radio_mode_t.RX then packet_after env tx_packet k
    else
      let p := visit_point env k
      { b0 := toUint8 (wrapInt32 k), b1 := p.1, b2 := p.2.1, b3 := p.2.2 }

/-- The state at the test of the fine loop just before visit number `k`. -/
def visit_state (env : Env) (tx_packet : Packet) (k : Nat) : State :=
  { loc := Loc.fine_test
    cfg_coarse := (visit_point env k).1
    cfg_mid := (visit_point env k).2.1
    cfg_fine := (visit_point env k).2.2
    i := if k = 0 then 0 else 1
    packet_counter := wrapInt32 k
    tx_packet := packet_after env tx_packet k
    trace := visits_trace env k }

/-- The state in which the run returns when it does so in visit number `k`. -/
def return_state (env : Env) (tx_packet : Packet) (k : Nat) : State :=
  { loc := Loc.returned
    cfg_coarse := (visit_point env k).1
    cfg_mid := (visit_point env k).2.1
    cfg_fine := (visit_point env k).2.2
    i := 0
    packet_counter := wrapInt32 ((k : Int) + 1)
    tx_packet := packet_after env tx_packet (k + 1)
    trace := visits_trace env (k + 1) }

/-- The radio calls (`send_packet`, `receive_packet`) of a trace, in order. -/
def radio_calls (tr : List Event) : List Event :=
  tr.filter fun e =>
    match e with
    | Event.receive_packet _ _ _ => true
    | Event.send_packet _ _ _ _ _ => true
    | _ => false

/-- The tuning point of a radio call. -/
def Event.point : Event → Option Point
  | Event.receive_packet c m f => some (c, m, f)
  | Event.send_packet c m f _ _ => some (c, m, f)
  | _ => none

/-- The tuning points of the radio calls of a trace, in order. -/
def points (tr : List Event) : List Point := tr.filterMap Event.point

/-- The send calls. -/
def Event.is_send : Event → Bool
  | Event.send_packet _ _ _ _ _ => true
  | _ => false

/-- The receive calls. -/
def Event.is_receive : Event → Bool
  | Event.receive_packet _ _ _ => true
  | _ => false

/-- Lexicographic order on tuning points: coarse first, then mid, then fine. -/
def lex_lt (p q : Point) : Prop :=
  p.1 < q.1 ∨ (p.1 = q.1 ∧ (p.2.1 < q.2.1 ∨ (p.2.1 = q.2.1 ∧ p.2.2 < q.2.2)))

instance lex_lt_decidable (p q : Point) : Decidable (lex_lt p q) := by
  unfold lex_lt; infer_instance

/-- The grid position with number `k` when the sweep grid `{22} x [20,32) x [0,32)` is
walked over and over with fine varying fastest. -/
def sweep_grid_point (k : Nat) : Point := (22, 20 + (k % 384) / 32, k % 32)

/-- The fixed tuning point of a direction: the constants `FIXED_LC_*_TX`, `FIXED_LC_*_RX`. -/
def fixed_point (radio_mode : radio_mode_t) : Point :=
  match radio_mode with
  | radio_mode_t.TX => (FIXED_LC_COARSE_TX, FIXED_LC_MID_TX, FIXED_LC_FINE_TX)
  | radio_mode_t.RX => (FIXED_LC_COARSE_RX, FIXED_LC_MID_RX, FIXED_LC_FINE_RX)

/-! ## Runs of `repeat_rx_tx` and the dispatch of `main` -/

/-- The state of a call `repeat_rx_tx(radio_mode, repeat_mode, total_packets)` after `n`
transitions, in a build with the given `SOLAR_MODE`, when the global `tx_packet` holds
`tx_packet` on entry. -/
def repeat_rx_tx (SOLAR_MODE : Nat) (radio_mode : radio_mode_t) (repeat_mode : repeat_mode_t)
    (total_packets : Int) (tx_packet : Packet) (n : Nat) : State :=
  run
    { SOLAR_MODE := SOLAR_MODE
      radio_mode := radio_mode
      repeat_mode := repeat_mode
      total_packets := total_packets }
    n (init tx_packet)

/-- The global `tx_repeat_mode` (line 55). -/
def tx_repeat_mode : repeat_mode_t := repeat_mode_t.FIXED

/-- The global `rx_repeat_mode` (line 56). -/
def rx_repeat_mode : repeat_mode_t := repeat_mode_t.FIXED

/-- The calls of `repeat_rx_tx` in the dispatch of `main` on `MODE` (lines 103-112), in
program order, each as `(radio_mode, repeat_mode, total_packets)`. -/
def main_calls (MODE : Nat) : List (radio_mode_t × repeat_mode_t × Int) :=
  if MODE = 0 then [(radio_mode_t.TX, tx_repeat_mode, -1)]
  else if MODE = 1 then [(radio_mode_t.RX, rx_repeat_mode, -1)]
  else if MODE = 2 then
    [(radio_mode_t.TX, tx_repeat_mode, 100), (radio_mode_t.RX, rx_repeat_mode, -1)]
  else []

/-- The external calls made by a sequence of calls of `repeat_rx_tx`, each followed for
`fuel` transitions.  The next call is started only when the one before it has returned,
and it finds the global `tx_packet` as that call left it. -/
def run_calls (SOLAR_MODE fuel : Nat) :
    List (radio_mode_t × repeat_mode_t × Int) → Packet → List Event
  | [], _ => []
  | (radio_mode, repeat_mode, total_packets) :: rest, tx_packet =>
    let s := repeat_rx_tx SOLAR_MODE radio_mode repeat_mode total_packets tx_packet fuel
    s.trace ++ (if s.loc = Loc.returned then run_calls SOLAR_MODE fuel rest s.tx_packet else [])

/-- The calls into the radio and power interface made by `main` from its dispatch on
`MODE` (line 103) on.  When the integrity check of lines 82-89 fails (`crc_ok = false`),
`main` halts before the dispatch. -/
def main_trace (crc_ok : Bool) (SOLAR_MODE MODE fuel : Nat) (tx_packet : Packet) : List Event :=
  if crc_ok then run_calls SOLAR_MODE fuel (main_calls MODE) tx_packet else []

/-- Two states at the same control point with the same loop variables and packet counter,
whose traces have the same tuning points. -/
def same_walk (s t : State) : Prop :=
  s.loc = t.loc ∧ s.cfg_coarse = t.cfg_coarse ∧ s.cfg_mid = t.cfg_mid ∧
    s.cfg_fine = t.cfg_fine ∧ s.i = t.i ∧ s.packet_counter = t.packet_counter ∧
    points s.trace = points t.trace

/-- Two states that differ at most in the contents of the global `tx_packet`. -/
def same_but_packet (s t : State) : Prop :=
  s.loc = t.loc ∧ s.cfg_coarse = t.cfg_coarse ∧ s.cfg_mid = t.cfg_mid ∧
    s.cfg_fine = t.cfg_fine ∧ s.i = t.i ∧ s.packet_counter = t.packet_counter ∧
    s.trace = t.trace

/-! ## Predicates on states and events -/

/-- The power-mode calls. -/
def Event.is_power : Event → Bool
  | Event.low_power_mode => true
  | Event.normal_power_mode => true
  | _ => false

/-- The number of radio calls completed in a state. -/
def calls_made (s : State) : Nat := (radio_calls s.trace).length

/-- The packet counter, as a 32-bit `int`, against the radio calls completed: between a
radio call and the increment of line 201 it is one call behind, elsewhere it is level. -/
def counter_tracks_calls (s : State) : Prop :=
  if s.loc = Loc.count then
    1 ≤ calls_made s ∧ s.packet_counter = wrapInt32 ((calls_made s : Int) - 1)
  else s.packet_counter = wrapInt32 (calls_made s : Int)

/-- Control points inside the body of the coarse loop (line 174), its increment
included. -/
def Loc.in_coarse_body : Loc → Bool
  | Loc.while_top => false
  | Loc.coarse_test => false
  | _ => true

/-- Control points inside the body of the mid loop (line 175), its increment included. -/
def Loc.in_mid_body : Loc → Bool
  | Loc.while_top => false
  | Loc.coarse_test => false
  | Loc.mid_init => false
  | Loc.mid_test => false
  | Loc.coarse_incr => false
  | _ => true

/-- Control points inside the body of the fine loop (line 176), its increment included. -/
def Loc.in_fine_body : Loc → Bool
  | Loc.solar => true
  | Loc.pkt_init => true
  | Loc.pkt_test => true
  | Loc.radio => true
  | Loc.count => true
  | Loc.pkt_incr => true
  | Loc.fine_incr => true
  | Loc.returned => true
  | _ => false

/-- Every loop variable is at most the stop bound of its range, and below it inside the
body of its loop. -/
def loops_in_range (r : Range) (s : State) : Prop :=
  s.cfg_coarse ≤ r.cfg_coarse_stop ∧ s.cfg_mid ≤ r.cfg_mid_stop ∧ s.cfg_fine ≤ r.cfg_fine_stop ∧
    (s.loc.in_coarse_body = true → s.cfg_coarse < r.cfg_coarse_stop) ∧
    (s.loc.in_mid_body = true → s.cfg_mid < r.cfg_mid_stop) ∧
    (s.loc.in_fine_body = true → s.cfg_fine < r.cfg_fine_stop)

/-! ## Basic facts about the transition system -/

theorem run_add (env : Env) (a b : Nat) (s : State) :
    run env (a + b) s = run env b (run env a s) := by
  induction a generalizing s with
  | zero => simp [run]
  | succ a ih => rw [Nat.succ_add]; exact ih (step env s)

theorem run_returned (env : Env) (n : Nat) (s : State) (h : s.loc = Loc.returned) :
    run env n s = s := by
  induction n with
  | zero => rfl
  | succ n ih =>
    have hs : step env s = s := by simp [step, h]
    rw [run, hs, ih]

/-- Both bounds of every dimension of a derived range lie below 256, the coarse
dimension has one value, and no dimension is empty. -/
theorem tuning_range_bounds (radio_mode : radio_mode_t) (repeat_mode : repeat_mode_t) :
    (tuning_range radio_mode repeat_mode).cfg_coarse_stop
        = (tuning_range radio_mode repeat_mode).cfg_coarse_start + 1 ∧
      (tuning_range radio_mode repeat_mode).cfg_coarse_stop ≤ 255 ∧
      (tuning_range radio_mode repeat_mode).cfg_mid_start
        < (tuning_range radio_mode repeat_mode).cfg_mid_stop ∧
      (tuning_range radio_mode repeat_mode).cfg_mid_stop ≤ 255 ∧
      (tuning_range radio_mode repeat_mode).cfg_fine_start
        < (tuning_range radio_mode repeat_mode).cfg_fine_stop ∧
      (tuning_range radio_mode repeat_mode).cfg_fine_stop ≤ 255 := by
  cases radio_mode <;> cases repeat_mode <;> decide

/-- Every visited tuning point lies inside the range. -/
theorem point_seq_in_range (radio_mode : radio_mode_t) (repeat_mode : repeat_mode_t) (k : Nat) :
    (point_seq (tuning_range radio_mode repeat_mode) k).1
        = (tuning_range radio_mode repeat_mode).cfg_coarse_start ∧
      (tuning_range radio_mode repeat_mode).cfg_mid_start
        ≤ (point_seq (tuning_range radio_mode repeat_mode) k).2.1 ∧
      (point_seq (tuning_range radio_mode repeat_mode) k).2.1
        < (tuning_range radio_mode repeat_mode).cfg_mid_stop ∧
      (tuning_range radio_mode repeat_mode).cfg_fine_start
        ≤ (point_seq (tuning_range radio_mode repeat_mode) k).2.2 ∧
      (point_seq (tuning_range radio_mode repeat_mode) k).2.2
        < (tuning_range radio_mode repeat_mode).cfg_fine_stop := by
  have hb := tuning_range_bounds radio_mode repeat_mode
  generalize tuning_range radio_mode repeat_mode = r at hb ⊢
  induction k with
  | zero => dsimp only [point_seq]; omega
  | succ k ih =>
    dsimp only [point_seq, next_point]
    split_ifs <;> dsimp only <;> omega

/-! ## From the entry to the first visit, and from one visit to the next -/

theorem run_init (env : Env) (tx_packet : Packet) :
    run env 5 (init tx_packet) = visit_state env tx_packet 0 := by
  obtain ⟨h1, -, h3, -, -, -⟩ := tuning_range_bounds env.radio_mode env.repeat_mode
  have h1' : (tuning_range env.radio_mode env.repeat_mode).cfg_coarse_start
      < (tuning_range env.radio_mode env.repeat_mode).cfg_coarse_stop := by omega
  simp [run, step, init, visit_state, visit_point, point_seq, visits_trace, packet_after,
    wrapInt32, h1', h3]

theorem wrapInt32_succ (k : Nat) :
    wrapInt32 (wrapInt32 (k : Int) + 1) = wrapInt32 ((k : Int) + 1) := by
  simp only [wrapInt32]; omega

/-- The transitions of visit `k` up to the return test, when the test succeeds. -/
theorem visit_return (env : Env) (tx_packet : Packet) (k : Nat)
    (h : wrapInt32 ((k : Int) + 1) = env.total_packets) :
    run env 6 (visit_state env tx_packet k) = return_state env tx_packet k := by
  obtain ⟨sm, rm, pm, total⟩ := env
  obtain ⟨-, -, -, -, hf⟩ := point_seq_in_range rm pm k
  have hw := wrapInt32_succ k
  simp only at h
  cases rm <;> by_cases hs : sm = 0 <;>
    simp [run, step, visit_state, return_state, visit_point, visits_trace, packet_after,
      visit_events, radio_event, hf, hw, h, hs]

/-- The transitions of visit `k` up to the next test of the fine loop, when the return
test fails. -/
theorem visit_body (env : Env) (tx_packet : Packet) (k : Nat)
    (h : wrapInt32 ((k : Int) + 1) ≠ env.total_packets) :
    run env 9 (visit_state env tx_packet k) =
      { loc := Loc.fine_test
        cfg_coarse := (visit_point env k).1
        cfg_mid := (visit_point env k).2.1
        cfg_fine := (visit_point env k).2.2 + 1
        i := 1
        packet_counter := wrapInt32 ((k : Int) + 1)
        tx_packet := packet_after env tx_packet (k + 1)
        trace := visits_trace env (k + 1) } := by
  obtain ⟨sm, rm, pm, total⟩ := env
  obtain ⟨-, -, -, -, hf⟩ := point_seq_in_range rm pm k
  obtain ⟨-, -, -, -, -, hf2⟩ := tuning_range_bounds rm pm
  have hw := wrapInt32_succ k
  have hm : ((point_seq (tuning_range rm pm) k).2.2 + 1) % 256
      = (point_seq (tuning_range rm pm) k).2.2 + 1 := by omega
  have h1 : wrapInt32 1 = 1 := by decide
  simp only at h
  cases rm <;> by_cases hs : sm = 0 <;>
    simp [run, step, visit_state, visit_point, visits_trace, packet_after,
      visit_events, radio_event, hf, hw, h, hs, hm, h1]

/-- From the test before visit `k` the run reaches the test before visit `k + 1`, when
the return test of visit `k` fails. -/
theorem visit_next (env : Env) (tx_packet : Packet) (k : Nat)
    (h : wrapInt32 ((k : Int) + 1) ≠ env.total_packets) :
    ∃ j, 1 ≤ j ∧ run env j (visit_state env tx_packet k) = visit_state env tx_packet (k + 1) := by
  have hbody := visit_body env tx_packet k h
  obtain ⟨sm, rm, pm, total⟩ := env
  obtain ⟨hc, -, hm, -, hf⟩ := point_seq_in_range rm pm k
  obtain ⟨hb1, hb2, hb3, hb4, hb5, hb6⟩ := tuning_range_bounds rm pm
  by_cases hA : (point_seq (tuning_range rm pm) k).2.2 + 1 < (tuning_range rm pm).cfg_fine_stop
  · refine ⟨9, by omega, ?_⟩
    rw [hbody]
    simp [visit_state, visit_point, point_seq, next_point, hA]
  · by_cases hB : (point_seq (tuning_range rm pm) k).2.1 + 1 < (tuning_range rm pm).cfg_mid_stop
    · refine ⟨9 + 4, by omega, ?_⟩
      rw [run_add, hbody]
      have hm' : ((point_seq (tuning_range rm pm) k).2.1 + 1) % 256
          = (point_seq (tuning_range rm pm) k).2.1 + 1 := by omega
      simp [run, step, visit_state, visit_point, point_seq, next_point, hA, hB, hm']
    · refine ⟨9 + 10, by omega, ?_⟩
      rw [run_add, hbody]
      have hm' : ((point_seq (tuning_range rm pm) k).2.1 + 1) % 256
          = (point_seq (tuning_range rm pm) k).2.1 + 1 := by omega
      have hc' : ((tuning_range rm pm).cfg_coarse_start + 1) % 256
          = (tuning_range rm pm).cfg_coarse_start + 1 := by omega
      have hC : ¬ (tuning_range rm pm).cfg_coarse_start + 1
          < (tuning_range rm pm).cfg_coarse_stop := by omega
      simp [run, step, visit_state, visit_point, point_seq, next_point, hA, hB, hm', hc', hc,
        hC, hb1, hb3]

/-! ## Reaching the visits and the return -/

/-- As long as the return test has failed in every earlier visit, the run reaches the
test before visit `k`. -/
theorem reach_visit (env : Env) (tx_packet : Packet) (k : Nat)
    (h : ∀ j : Nat, 1 ≤ j → j ≤ k → wrapInt32 (j : Int) ≠ env.total_packets) :
    ∃ n, k ≤ n ∧ run env n (init tx_packet) = visit_state env tx_packet k := by
  induction k with
  | zero => exact ⟨5, by omega, run_init env tx_packet⟩
  | succ k ih =>
    obtain ⟨n, hn, hrun⟩ := ih (fun j h1 h2 => h j h1 (by omega))
    have hk : wrapInt32 ((k : Int) + 1) ≠ env.total_packets := by
      have := h (k + 1) (by omega) (by omega)
      push_cast at this
      exact this
    obtain ⟨j, hj, hnext⟩ := visit_next env tx_packet k hk
    exact ⟨n + j, by omega, by rw [run_add, hrun, hnext]⟩

/-- When the return test first succeeds in visit `k`, the run returns there. -/
theorem reach_return (env : Env) (tx_packet : Packet) (k : Nat)
    (h : ∀ j : Nat, 1 ≤ j → j ≤ k → wrapInt32 (j : Int) ≠ env.total_packets)
    (hk : wrapInt32 ((k : Int) + 1) = env.total_packets) :
    ∃ n, run env n (init tx_packet) = return_state env tx_packet k := by
  obtain ⟨n, -, hrun⟩ := reach_visit env tx_packet k h
  exact ⟨n + 6, by rw [run_add, hrun, visit_return env tx_packet k hk]⟩

/-- A transition only appends to the trace. -/
theorem step_trace (env : Env) (s : State) : ∃ rest, (step env s).trace = s.trace ++ rest := by
  simp only [step]
  split <;> (try split_ifs) <;>
    first
      | exact ⟨[], (List.append_nil _).symm⟩
      | exact ⟨_, rfl⟩

theorem run_trace (env : Env) (n : Nat) (s : State) :
    ∃ rest, (run env n s).trace = s.trace ++ rest := by
  induction n generalizing s with
  | zero => exact ⟨[], (List.append_nil _).symm⟩
  | succ n ih =>
    obtain ⟨r1, h1⟩ := ih (step env s)
    obtain ⟨r2, h2⟩ := step_trace env s
    exact ⟨r2 ++ r1, by rw [run, h1, h2, List.append_assoc]⟩

/-- Once the run has returned, its state is the state of every later moment, and the
trace of every earlier moment is an initial part of its trace. -/
theorem returned_final (env : Env) (s : State) (n m : Nat)
    (h : (run env n s).loc = Loc.returned) :
    ∃ rest, (run env n s).trace = (run env m s).trace ++ rest ∧
      ((run env m s).loc = Loc.returned → run env m s = run env n s) := by
  rcases Nat.le_total m n with hle | hle
  · obtain ⟨d, rfl⟩ := Nat.exists_eq_add_of_le hle
    obtain ⟨rest, hrest⟩ := run_trace env d (run env m s)
    refine ⟨rest, by rw [run_add, hrest], fun hm => ?_⟩
    rw [run_add, run_returned env d _ hm]
  · obtain ⟨d, rfl⟩ := Nat.exists_eq_add_of_le hle
    have : run env (n + d) s = run env n s := by rw [run_add, run_returned env d _ h]
    exact ⟨[], by rw [this, List.append_nil], fun _ => this⟩

/-- At every moment of a run the trace is an initial part of the calls of some number of
visits. -/
theorem trace_visits (env : Env) (tx_packet : Packet) (n : Nat) :
    ∃ k rest, visits_trace env k = (run env n (init tx_packet)).trace ++ rest := by
  by_cases hex : ∃ j : Nat, 1 ≤ j ∧ wrapInt32 (j : Int) = env.total_packets
  · have hK := Nat.find_spec hex
    have hmin := fun j => @Nat.find_min _ _ hex j
    obtain ⟨K', hK'⟩ : ∃ K', Nat.find hex = K' + 1 := ⟨Nat.find hex - 1, by omega⟩
    rw [hK'] at hK hmin
    obtain ⟨nR, hR⟩ := reach_return env tx_packet K'
      (fun j h1 h2 hj => hmin j (by omega) ⟨h1, hj⟩)
      (by have := hK.2; push_cast at this; exact this)
    obtain ⟨rest, hrest, -⟩ := returned_final env (init tx_packet) nR n (by rw [hR]; rfl)
    exact ⟨K' + 1, rest, by rw [← hrest, hR]; rfl⟩
  · obtain ⟨m, hm, hrun⟩ := reach_visit env tx_packet n
      (fun j h1 _ hj => hex ⟨j, h1, hj⟩)
    obtain ⟨d, rfl⟩ := Nat.exists_eq_add_of_le hm
    obtain ⟨rest, hrest⟩ := run_trace env d (run env n (init tx_packet))
    exact ⟨n, rest, by rw [← hrest, ← run_add, hrun]; rfl⟩

/-- When the return test first succeeds in visit `K`, the run returns, every returned
state is `return_state env tx_packet K`, and the trace never grows beyond the calls of
the first `K + 1` visits. -/
theorem returns_in_visit (env : Env) (tx_packet : Packet) (K : Nat)
    (h : ∀ j : Nat, 1 ≤ j → j ≤ K → wrapInt32 (j : Int) ≠ env.total_packets)
    (hK : wrapInt32 ((K : Int) + 1) = env.total_packets) :
    (∃ n, (run env n (init tx_packet)).loc = Loc.returned) ∧
      (∀ n, (run env n (init tx_packet)).loc = Loc.returned →
        run env n (init tx_packet) = return_state env tx_packet K) ∧
      (∀ n, ∃ rest, visits_trace env (K + 1) = (run env n (init tx_packet)).trace ++ rest) := by
  obtain ⟨nR, hR⟩ := reach_return env tx_packet K h hK
  have hloc : (run env nR (init tx_packet)).loc = Loc.returned := by rw [hR]; rfl
  refine ⟨⟨nR, hloc⟩, fun n hn => ?_, fun n => ?_⟩
  · obtain ⟨-, -, heq⟩ := returned_final env (init tx_packet) nR n hloc
    rw [heq hn, hR]
  · obtain ⟨rest, hrest, -⟩ := returned_final env (init tx_packet) nR n hloc
    exact ⟨rest, by rw [← hrest, hR]; rfl⟩

/-! ## The radio calls of a run -/

theorem radio_calls_append (a b : List Event) :
    radio_calls (a ++ b) = radio_calls a ++ radio_calls b := by
  simp [radio_calls]

theorem radio_calls_visit_events (env : Env) (k : Nat) :
    radio_calls (visit_events env k) = [radio_event env k] := by
  obtain ⟨sm, rm, pm, total⟩ := env
  cases rm <;> by_cases hs : sm = 0 <;> simp [radio_calls, visit_events, radio_event, hs]

theorem radio_calls_visits (env : Env) (k : Nat) :
    radio_calls (visits_trace env k) = (List.range k).map (radio_event env) := by
  induction k with
  | zero => rfl
  | succ k ih =>
    rw [visits_trace, radio_calls_append, ih, radio_calls_visit_events, List.range_succ,
      List.map_append, List.map_singleton]

/-- An initial part of the list `f 0, f 1, ..., f (k - 1)` is the list
`f 0, ..., f (j - 1)` for its own length `j`. -/
theorem initial_part_map_range {α : Type} (f : Nat → α) (l r : List α) (k : Nat)
    (h : (List.range k).map f = l ++ r) : l.length ≤ k ∧ l = (List.range l.length).map f := by
  have hlen : l.length ≤ k := by
    have := congrArg List.length h
    simp at this
    omega
  refine ⟨hlen, ?_⟩
  have h1 : l = (l ++ r).take l.length := by simp
  rw [← h, ← List.map_take, List.take_range, Nat.min_eq_left hlen] at h1
  exact h1

/-- At every moment of a run, the radio calls made so far are the radio calls of the
visits `0, 1, ..., j - 1`, where `j` is their number. -/
theorem radio_calls_run (env : Env) (tx_packet : Packet) (n : Nat) :
    radio_calls (run env n (init tx_packet)).trace =
      (List.range (radio_calls (run env n (init tx_packet)).trace).length).map
        (radio_event env) := by
  obtain ⟨k, rest, h⟩ := trace_visits env tx_packet n
  have h2 := congrArg radio_calls h
  rw [radio_calls_visits, radio_calls_append] at h2
  exact (initial_part_map_range _ _ _ _ h2).2


/-- Every radio call of a run is the radio call of some visit. -/
theorem mem_radio_calls_run (env : Env) (tx_packet : Packet) (n : Nat) (e : Event)
    (h : e ∈ radio_calls (run env n (init tx_packet)).trace) : ∃ k, e = radio_event env k := by
  rw [radio_calls_run] at h
  obtain ⟨k, -, hk⟩ := List.mem_map.mp h
  exact ⟨k, hk.symm⟩

/-- The radio call with number `k` of a run, when it has been made, is the radio call of
visit `k`. -/
theorem getElem_radio_calls_run (env : Env) (tx_packet : Packet) (n k : Nat) (e : Event)
    (h : (radio_calls (run env n (init tx_packet)).trace)[k]? = some e) :
    e = radio_event env k := by
  rw [radio_calls_run, List.getElem?_map] at h
  cases hk : (List.range (radio_calls (run env n (init tx_packet)).trace).length)[k]? with
  | none => rw [hk] at h; simp at h
  | some j =>
    rw [hk] at h
    have hj : j = k := by
      rw [List.getElem?_eq_some_iff] at hk
      obtain ⟨hlt, hget⟩ := hk
      rw [← hget, List.getElem_range]
    subst hj
    simpa using h.symm

/-- The sequence byte: the packet counter of visit `k`, converted to `uint8_t`. -/
theorem toUint8_wrapInt32 (k : Nat) : toUint8 (wrapInt32 (k : Int)) = k % 256 := by
  simp only [toUint8, wrapInt32]
  omega

/-- In SWEEP mode visit `k` is at grid position `k`. -/
theorem visit_point_sweep (sm : Nat) (rm : radio_mode_t) (total : Int) (k : Nat) :
    visit_point ⟨sm, rm, repeat_mode_t.SWEEP, total⟩ k = sweep_grid_point k := by
  induction k with
  | zero => rfl
  | succ k ih =>
    simp only [visit_point, point_seq] at ih ⊢
    rw [ih]
    simp only [next_point, sweep_grid_point, tuning_range, STEPS_PER_CONFIG]
    simp only [reduceCtorEq, if_false]
    split_ifs <;> simp only [Prod.mk.injEq] <;> refine ⟨?_, ?_, ?_⟩ <;>
      first | trivial | omega

/-- In FIXED mode every visit is at the fixed point of the direction. -/
theorem visit_point_fixed (sm : Nat) (rm : radio_mode_t) (total : Int) (k : Nat) :
    visit_point ⟨sm, rm, repeat_mode_t.FIXED, total⟩ k = fixed_point rm := by
  induction k with
  | zero => cases rm <;> rfl
  | succ k ih =>
    simp only [visit_point, point_seq] at ih ⊢
    rw [ih]
    cases rm <;> rfl

/-- As long as the return test has failed in every earlier visit, the radio call of
visit `k` is made. -/
theorem radio_call_made (env : Env) (tx_packet : Packet) (k : Nat)
    (h : ∀ j : Nat, 1 ≤ j → j ≤ k → wrapInt32 (j : Int) ≠ env.total_packets) :
    ∃ n, (radio_calls (run env n (init tx_packet)).trace)[k]? = some (radio_event env k) := by
  obtain ⟨n, -, hrun⟩ := reach_visit env tx_packet k h
  have hk : (radio_calls (visits_trace env (k + 1)))[k]? = some (radio_event env k) := by
    rw [radio_calls_visits, List.getElem?_map, List.getElem?_range (Nat.lt_succ_self k)]
    rfl
  by_cases hret : wrapInt32 ((k : Int) + 1) = env.total_packets
  · refine ⟨n + 6, ?_⟩
    rw [run_add, hrun, visit_return env tx_packet k hret]
    exact hk
  · refine ⟨n + 9, ?_⟩
    rw [run_add, hrun, visit_body env tx_packet k hret]
    exact hk

/-! ## The claims -/

/-- C1: for every direction, every repeat mode and every `total_packets = N` with
`1 ≤ N ≤ 2^31 - 1`, `repeat_rx_tx` returns; when it has returned it has made exactly `N`
radio calls; at no moment has it made more than `N`; and all of them are `send_packet`
calls when the direction is TX and `receive_packet` calls when it is RX. -/
theorem repeat_rx_tx_exact_count (SOLAR_MODE : Nat) (radio_mode : radio_mode_t)
    (repeat_mode : repeat_mode_t) (N : Int) (tx_packet : Packet)
    (h1 : 1 ≤ N) (h2 : N ≤ 2147483647) :
    (∃ n, (repeat_rx_tx SOLAR_MODE radio_mode repeat_mode N tx_packet n).loc = Loc.returned) ∧
    (∀ n, (repeat_rx_tx SOLAR_MODE radio_mode repeat_mode N tx_packet n).loc = Loc.returned →
      ((radio_calls (repeat_rx_tx SOLAR_MODE radio_mode repeat_mode N tx_packet n).trace).length
        : Int) = N) ∧
    (∀ n,
      ((radio_calls (repeat_rx_tx SOLAR_MODE radio_mode repeat_mode N tx_packet n).trace).length
        : Int) ≤ N) ∧
    (∀ n, ∀ e ∈ radio_calls (repeat_rx_tx SOLAR_MODE radio_mode repeat_mode N tx_packet n).trace,
      (radio_mode = radio_mode_t.TX → e.is_send = true) ∧
      (radio_mode = radio_mode_t.RX → e.is_receive = true)) := by
  obtain ⟨K, rfl⟩ : ∃ K : Nat, N = (K : Int) + 1 := ⟨(N - 1).toNat, by omega⟩
  obtain ⟨hex, hret, hpre⟩ :=
    returns_in_visit ⟨SOLAR_MODE, radio_mode, repeat_mode, (K : Int) + 1⟩ tx_packet K
      (fun j _ hj => by simp only [wrapInt32]; omega) (by simp only [wrapInt32]; omega)
  refine ⟨hex, fun n hn => ?_, fun n => ?_, fun n e he => ?_⟩
  · have := hret n hn
    simp only [repeat_rx_tx]
    rw [this]
    simp [return_state, radio_calls_visits]
  · obtain ⟨rest, hrest⟩ := hpre n
    have := congrArg (fun l => (radio_calls l).length) hrest
    simp only [radio_calls_visits, radio_calls_append, List.length_map, List.length_range,
      List.length_append] at this
    simp only [repeat_rx_tx]
    omega
  · obtain ⟨k, rfl⟩ := mem_radio_calls_run _ tx_packet n e he
    cases radio_mode <;> simp [radio_event, Event.is_send, Event.is_receive]

/-- Witness of C1: `repeat_rx_tx(TX, FIXED, 3)`. -/
theorem repeat_rx_tx_exact_count_witness :
    (∃ n, (repeat_rx_tx 0 radio_mode_t.TX repeat_mode_t.FIXED 3 ⟨0, 0, 0, 0⟩ n).loc
      = Loc.returned) ∧
    (∀ n, (repeat_rx_tx 0 radio_mode_t.TX repeat_mode_t.FIXED 3 ⟨0, 0, 0, 0⟩ n).loc
        = Loc.returned →
      ((radio_calls
        (repeat_rx_tx 0 radio_mode_t.TX repeat_mode_t.FIXED 3 ⟨0, 0, 0, 0⟩ n).trace).length
        : Int) = 3) ∧
    (∀ n,
      ((radio_calls
        (repeat_rx_tx 0 radio_mode_t.TX repeat_mode_t.FIXED 3 ⟨0, 0, 0, 0⟩ n).trace).length
        : Int) ≤ 3) ∧
    (∀ n, ∀ e ∈ radio_calls
        (repeat_rx_tx 0 radio_mode_t.TX repeat_mode_t.FIXED 3 ⟨0, 0, 0, 0⟩ n).trace,
      (radio_mode_t.TX = radio_mode_t.TX → e.is_send = true) ∧
      (radio_mode_t.TX = radio_mode_t.RX → e.is_receive = true)) :=
  repeat_rx_tx_exact_count 0 radio_mode_t.TX repeat_mode_t.FIXED 3 ⟨0, 0, 0, 0⟩
    (by decide) (by decide)

/-- C2 (the code at the failing input): `repeat_rx_tx(TX, FIXED, 0)` does not return
without a radio call.  During its first 11 transitions it has not returned; by then it has
made the call `send_packet(22, 23, 4, {0, 22, 23, 4}, 4)` and the packet counter is 1, so the
first return test compares 1 with 0.  For every direction and mode, a run with
`total_packets = 0` that has returned has made 4294967296 radio calls (the 32-bit counter
has come round to 0). -/
theorem zero_total_makes_radio_calls :
    (∀ n < 12, (repeat_rx_tx 0 radio_mode_t.TX repeat_mode_t.FIXED 0 ⟨0, 0, 0, 0⟩ n).loc
      ≠ Loc.returned) ∧
    radio_calls (repeat_rx_tx 0 radio_mode_t.TX repeat_mode_t.FIXED 0 ⟨0, 0, 0, 0⟩ 11).trace
      = [Event.send_packet 22 23 4 ⟨0, 22, 23, 4⟩ 4] ∧
    (repeat_rx_tx 0 radio_mode_t.TX repeat_mode_t.FIXED 0 ⟨0, 0, 0, 0⟩ 11).packet_counter = 1 ∧
    (∀ (SOLAR_MODE : Nat) (radio_mode : radio_mode_t) (repeat_mode : repeat_mode_t)
      (tx_packet : Packet) (n : Nat),
      (repeat_rx_tx SOLAR_MODE radio_mode repeat_mode 0 tx_packet n).loc = Loc.returned →
      (radio_calls (repeat_rx_tx SOLAR_MODE radio_mode repeat_mode 0 tx_packet n).trace).length
        = 4294967296) := by
  refine ⟨by decide, by decide, by decide, fun sm rm pm tx0 n hn => ?_⟩
  obtain ⟨-, hret, -⟩ :=
    returns_in_visit ⟨sm, rm, pm, 0⟩ tx0 4294967295
      (fun j _ hj => by simp only [wrapInt32]; omega) (by simp only [wrapInt32]; omega)
  have := hret n hn
  simp only [repeat_rx_tx]
  rw [this]
  simp [return_state, radio_calls_visits]

/-- C3 (the code on negative bounds): with the packet counter a 32-bit two's-complement
`int`, a run with `-2^31 ≤ total_packets < 0` returns; when it has returned it has made
exactly `2^32 + total_packets` radio calls and the packet counter equals
`total_packets`. -/
theorem negative_total_returns (SOLAR_MODE : Nat) (radio_mode : radio_mode_t)
    (repeat_mode : repeat_mode_t) (total_packets : Int) (tx_packet : Packet)
    (h1 : -2147483648 ≤ total_packets) (h2 : total_packets < 0) :
    (∃ n, (repeat_rx_tx SOLAR_MODE radio_mode repeat_mode total_packets tx_packet n).loc
      = Loc.returned) ∧
    (∀ n, (repeat_rx_tx SOLAR_MODE radio_mode repeat_mode total_packets tx_packet n).loc
        = Loc.returned →
      ((radio_calls
        (repeat_rx_tx SOLAR_MODE radio_mode repeat_mode total_packets tx_packet n).trace).length
        : Int) = 4294967296 + total_packets ∧
      (repeat_rx_tx SOLAR_MODE radio_mode repeat_mode total_packets tx_packet n).packet_counter
        = total_packets) := by
  obtain ⟨K, hK⟩ : ∃ K : Nat, 4294967296 + total_packets = (K : Int) + 1 :=
    ⟨(4294967296 + total_packets - 1).toNat, by omega⟩
  obtain ⟨hex, hret, -⟩ :=
    returns_in_visit ⟨SOLAR_MODE, radio_mode, repeat_mode, total_packets⟩ tx_packet K
      (fun j _ hj => by simp only [wrapInt32]; omega) (by simp only [wrapInt32]; omega)
  refine ⟨hex, fun n hn => ?_⟩
  have := hret n hn
  simp only [repeat_rx_tx]
  rw [this]
  refine ⟨?_, ?_⟩
  · simp [return_state, radio_calls_visits]
    omega
  · simp only [return_state, wrapInt32]
    omega

/-- Witness of `negative_total_returns`: the value `-1` that `main` passes; the run
returns after 4294967295 radio calls. -/
theorem negative_total_returns_witness :
    (∃ n, (repeat_rx_tx 0 radio_mode_t.RX repeat_mode_t.FIXED (-1) ⟨0, 0, 0, 0⟩ n).loc
      = Loc.returned) ∧
    (∀ n, (repeat_rx_tx 0 radio_mode_t.RX repeat_mode_t.FIXED (-1) ⟨0, 0, 0, 0⟩ n).loc
        = Loc.returned →
      ((radio_calls
        (repeat_rx_tx 0 radio_mode_t.RX repeat_mode_t.FIXED (-1) ⟨0, 0, 0, 0⟩ n).trace).length
        : Int) = 4294967296 + (-1) ∧
      (repeat_rx_tx 0 radio_mode_t.RX repeat_mode_t.FIXED (-1) ⟨0, 0, 0, 0⟩ n).packet_counter
        = -1) :=
  negative_total_returns 0 radio_mode_t.RX repeat_mode_t.FIXED (-1) ⟨0, 0, 0, 0⟩
    (by decide) (by decide)

/-- C4: in a TX run, in either repeat mode and for every `total_packets`, the
`send_packet` call with number `k` (from 0) is passed a tuning point `(c, m, f)`, the
length 4 and a buffer holding exactly the bytes `(k mod 256, c, m, f)`.  The run
`repeat_rx_tx(TX, FIXED, 3)` returns after three sends at `(22, 23, 4)` with the buffers
`(0,22,23,4)`, `(1,22,23,4)`, `(2,22,23,4)`. -/
theorem tx_packet_contents (SOLAR_MODE : Nat) (repeat_mode : repeat_mode_t)
    (total_packets : Int) (tx_packet : Packet) (n k : Nat) (e : Event)
    (h : (radio_calls
      (repeat_rx_tx SOLAR_MODE radio_mode_t.TX repeat_mode total_packets tx_packet n).trace)[k]?
        = some e) :
    (∃ c m f, e = Event.send_packet c m f ⟨k % 256, c, m, f⟩ 4) ∧
    (repeat_rx_tx 0 radio_mode_t.TX repeat_mode_t.FIXED 3 ⟨0, 0, 0, 0⟩ 49).loc = Loc.returned ∧
    (repeat_rx_tx 0 radio_mode_t.TX repeat_mode_t.FIXED 3 ⟨0, 0, 0, 0⟩ 49).trace
      = [Event.send_packet 22 23 4 ⟨0, 22, 23, 4⟩ 4, Event.send_packet 22 23 4 ⟨1, 22, 23, 4⟩ 4,
         Event.send_packet 22 23 4 ⟨2, 22, 23, 4⟩ 4] := by
  refine ⟨?_, by decide, by decide⟩
  have he := getElem_radio_calls_run _ tx_packet n k e h
  subst he
  refine ⟨(visit_point ⟨SOLAR_MODE, radio_mode_t.TX, repeat_mode, total_packets⟩ k).1,
    (visit_point ⟨SOLAR_MODE, radio_mode_t.TX, repeat_mode, total_packets⟩ k).2.1,
    (visit_point ⟨SOLAR_MODE, radio_mode_t.TX, repeat_mode, total_packets⟩ k).2.2, ?_⟩
  simp [radio_event, toUint8_wrapInt32]

/-- Witness of C4: the third send of `repeat_rx_tx(TX, FIXED, 3)`. -/
theorem tx_packet_contents_witness :
    (∃ c m f, Event.send_packet 22 23 4 ⟨2, 22, 23, 4⟩ 4
      = Event.send_packet c m f ⟨2 % 256, c, m, f⟩ 4) ∧
    (repeat_rx_tx 0 radio_mode_t.TX repeat_mode_t.FIXED 3 ⟨0, 0, 0, 0⟩ 49).loc = Loc.returned ∧
    (repeat_rx_tx 0 radio_mode_t.TX repeat_mode_t.FIXED 3 ⟨0, 0, 0, 0⟩ 49).trace
      = [Event.send_packet 22 23 4 ⟨0, 22, 23, 4⟩ 4, Event.send_packet 22 23 4 ⟨1, 22, 23, 4⟩ 4,
         Event.send_packet 22 23 4 ⟨2, 22, 23, 4⟩ 4] :=
  tx_packet_contents 0 repeat_mode_t.FIXED 3 ⟨0, 0, 0, 0⟩ 49 2
    (Event.send_packet 22 23 4 ⟨2, 22, 23, 4⟩ 4) (by decide)

/-- C5: in FIXED mode, for every `total_packets`, every radio call that `repeat_rx_tx`
makes, at whatever moment of the run, is at the tuning point `(22, 23, 4)` when the
direction is TX and at `(22, 22, 22)` when it is RX. -/
theorem fixed_mode_single_point (SOLAR_MODE : Nat) (radio_mode : radio_mode_t)
    (total_packets : Int) (tx_packet : Packet) (n : Nat) (e : Event)
    (h : e ∈ radio_calls
      (repeat_rx_tx SOLAR_MODE radio_mode repeat_mode_t.FIXED total_packets tx_packet n).trace) :
    (radio_mode = radio_mode_t.TX → e.point = some (22, 23, 4)) ∧
    (radio_mode = radio_mode_t.RX → e.point = some (22, 22, 22)) := by
  obtain ⟨k, rfl⟩ := mem_radio_calls_run _ tx_packet n e h
  have hp := visit_point_fixed SOLAR_MODE radio_mode total_packets k
  cases radio_mode <;> simp [radio_event, hp, fixed_point, Event.point]

/-- Witness of C5: the receive calls of `repeat_rx_tx(RX, FIXED, 3)`, each made after a
restart of the outer `while(1)` loop, are all at `(22, 22, 22)`. -/
theorem fixed_mode_single_point_witness :
    radio_calls (repeat_rx_tx 0 radio_mode_t.RX repeat_mode_t.FIXED 3 ⟨0, 0, 0, 0⟩ 49).trace
      = [Event.receive_packet 22 22 22, Event.receive_packet 22 22 22,
         Event.receive_packet 22 22 22] ∧
    ((radio_mode_t.RX = radio_mode_t.TX →
        (Event.receive_packet 22 22 22).point = some (22, 23, 4)) ∧
      (radio_mode_t.RX = radio_mode_t.RX →
        (Event.receive_packet 22 22 22).point = some (22, 22, 22))) :=
  ⟨by decide,
    fixed_mode_single_point 0 radio_mode_t.RX 3 ⟨0, 0, 0, 0⟩ 49 (Event.receive_packet 22 22 22)
      (by decide)⟩

/-! ### Tuning points of a run -/

theorem points_append (a b : List Event) : points (a ++ b) = points a ++ points b := by
  simp [points]

theorem points_visit_events (env : Env) (k : Nat) :
    points (visit_events env k) = [visit_point env k] := by
  obtain ⟨sm, rm, pm, total⟩ := env
  cases rm <;> by_cases hs : sm = 0 <;>
    simp [points, visit_events, radio_event, Event.point, hs]

theorem points_visits (env : Env) (k : Nat) :
    points (visits_trace env k) = (List.range k).map (visit_point env) := by
  induction k with
  | zero => rfl
  | succ k ih =>
    rw [visits_trace, points_append, ih, points_visit_events, List.range_succ,
      List.map_append, List.map_singleton]

/-- A run in SWEEP mode with `1 ≤ N ≤ 2^31 - 1` returns, and when it has returned the
tuning points of its radio calls are the grid positions `0, ..., N - 1`. -/
theorem sweep_points_at_return (sm : Nat) (rm : radio_mode_t) (K : Nat) (tx_packet : Packet)
    (hK : K < 2147483647) :
    (∃ n, (repeat_rx_tx sm rm repeat_mode_t.SWEEP ((K : Int) + 1) tx_packet n).loc
      = Loc.returned) ∧
    ∀ n, (repeat_rx_tx sm rm repeat_mode_t.SWEEP ((K : Int) + 1) tx_packet n).loc
        = Loc.returned →
      points (repeat_rx_tx sm rm repeat_mode_t.SWEEP ((K : Int) + 1) tx_packet n).trace
        = (List.range (K + 1)).map sweep_grid_point := by
  obtain ⟨hex, hret, -⟩ :=
    returns_in_visit ⟨sm, rm, repeat_mode_t.SWEEP, (K : Int) + 1⟩ tx_packet K
      (fun j _ hj => by simp only [wrapInt32]; omega) (by simp only [wrapInt32]; omega)
  refine ⟨hex, fun n hn => ?_⟩
  have := hret n hn
  simp only [repeat_rx_tx]
  rw [this]
  simp only [return_state, points_visits]
  exact List.map_congr_left (fun k _ => visit_point_sweep sm rm _ k)

/-- C6 (counterexample): `repeat_rx_tx(RX, SWEEP, 385)` returns, and on return the
tuning points of its calls number 383 and 384 are `(22, 31, 31)` and `(22, 20, 0)`: the
sequence of its 385 tuning points is not strictly ascending. -/
theorem sweep_not_ascending_past_grid :
    ∃ n, (repeat_rx_tx 0 radio_mode_t.RX repeat_mode_t.SWEEP 385 ⟨0, 0, 0, 0⟩ n).loc
        = Loc.returned ∧
      (points (repeat_rx_tx 0 radio_mode_t.RX repeat_mode_t.SWEEP 385 ⟨0, 0, 0, 0⟩ n).trace)[383]?
        = some (22, 31, 31) ∧
      (points (repeat_rx_tx 0 radio_mode_t.RX repeat_mode_t.SWEEP 385 ⟨0, 0, 0, 0⟩ n).trace)[384]?
        = some (22, 20, 0) ∧
      ¬ lex_lt (22, 31, 31) (22, 20, 0) ∧
      ¬ List.Pairwise lex_lt
        (points (repeat_rx_tx 0 radio_mode_t.RX repeat_mode_t.SWEEP 385 ⟨0, 0, 0, 0⟩ n).trace) := by
  obtain ⟨⟨n, hn⟩, hpts⟩ := sweep_points_at_return 0 radio_mode_t.RX 384 ⟨0, 0, 0, 0⟩ (by decide)
  have hp := hpts n hn
  have h385 : ((384 : Nat) : Int) + 1 = 385 := by decide
  rw [h385] at hn hp
  have h383 : (points
      (repeat_rx_tx 0 radio_mode_t.RX repeat_mode_t.SWEEP 385 ⟨0, 0, 0, 0⟩ n).trace)[383]?
      = some (22, 31, 31) := by
    rw [hp, List.getElem?_map, List.getElem?_range (by decide)]; rfl
  have h384 : (points
      (repeat_rx_tx 0 radio_mode_t.RX repeat_mode_t.SWEEP 385 ⟨0, 0, 0, 0⟩ n).trace)[384]?
      = some (22, 20, 0) := by
    rw [hp, List.getElem?_map, List.getElem?_range (by decide)]; rfl
  refine ⟨n, hn, h383, h384, by decide, fun hpw => ?_⟩
  have hlt : lex_lt (22, 31, 31) (22, 20, 0) := by
    rw [List.pairwise_iff_getElem] at hpw
    have hlen : (points
        (repeat_rx_tx 0 radio_mode_t.RX repeat_mode_t.SWEEP 385 ⟨0, 0, 0, 0⟩ n).trace).length
        = 385 := by rw [hp]; simp
    have := hpw 383 384 (by omega) (by omega) (by omega)
    rw [List.getElem?_eq_some_iff] at h383 h384
    obtain ⟨_, e1⟩ := h383
    obtain ⟨_, e2⟩ := h384
    rw [e1, e2] at this
    exact this
  exact absurd hlt (by decide)

/-- C6 (amended): in SWEEP mode, for either direction and every `total_packets = N` with
`1 ≤ N ≤ 2^31 - 1`, the run returns, and the sequence of the tuning points of its radio
calls, in call order, has `N` entries, starts at `(22, 20, 0)`, has `coarse = 22`,
`20 ≤ mid < 32` and `fine < 32` at every entry, and is strictly ascending in lexicographic
order when `N ≤ 384` (one pass of the grid).  The run `repeat_rx_tx(RX, SWEEP, 2)` makes
receive calls at `(22, 20, 0)` then `(22, 20, 1)`. -/
theorem sweep_points_ascending_within_grid (SOLAR_MODE : Nat) (radio_mode : radio_mode_t)
    (N : Int) (tx_packet : Packet) (h1 : 1 ≤ N) (h2 : N ≤ 2147483647) :
    (∃ n, (repeat_rx_tx SOLAR_MODE radio_mode repeat_mode_t.SWEEP N tx_packet n).loc
      = Loc.returned) ∧
    (∀ n, (repeat_rx_tx SOLAR_MODE radio_mode repeat_mode_t.SWEEP N tx_packet n).loc
        = Loc.returned →
      ((points (repeat_rx_tx SOLAR_MODE radio_mode repeat_mode_t.SWEEP N tx_packet n).trace).length
        : Int) = N ∧
      (points (repeat_rx_tx SOLAR_MODE radio_mode repeat_mode_t.SWEEP N tx_packet n).trace).head?
        = some (22, 20, 0) ∧
      (∀ p ∈ points (repeat_rx_tx SOLAR_MODE radio_mode repeat_mode_t.SWEEP N tx_packet n).trace,
        p.1 = 22 ∧ 20 ≤ p.2.1 ∧ p.2.1 < 32 ∧ p.2.2 < 32) ∧
      (N ≤ 384 → List.Pairwise lex_lt
        (points (repeat_rx_tx SOLAR_MODE radio_mode repeat_mode_t.SWEEP N tx_packet n).trace))) ∧
    (repeat_rx_tx 0 radio_mode_t.RX repeat_mode_t.SWEEP 2 ⟨0, 0, 0, 0⟩ 20).loc = Loc.returned ∧
    (repeat_rx_tx 0 radio_mode_t.RX repeat_mode_t.SWEEP 2 ⟨0, 0, 0, 0⟩ 20).trace
      = [Event.receive_packet 22 20 0, Event.receive_packet 22 20 1] := by
  obtain ⟨K, rfl⟩ : ∃ K : Nat, N = (K : Int) + 1 := ⟨(N - 1).toNat, by omega⟩
  obtain ⟨hex, hpts⟩ := sweep_points_at_return SOLAR_MODE radio_mode K tx_packet (by omega)
  refine ⟨hex, fun n hn => ?_, by decide, by decide⟩
  rw [hpts n hn]
  refine ⟨by simp, by simp [List.range_succ_eq_map, sweep_grid_point], fun p hp => ?_, fun hN => ?_⟩
  · obtain ⟨k, -, rfl⟩ := List.mem_map.mp hp
    dsimp only [sweep_grid_point]
    refine ⟨rfl, ?_, ?_, ?_⟩ <;> omega
  · rw [List.pairwise_map]
    refine List.Pairwise.imp_of_mem ?_ (List.pairwise_lt_range (K + 1))
    intro a b ha hb hab
    rw [List.mem_range] at ha hb
    dsimp only [lex_lt, sweep_grid_point]
    refine Or.inr ⟨rfl, ?_⟩
    by_cases hrow : a / 32 < b / 32
    · left; omega
    · right; constructor <;> omega

/-- Witness of C6 (amended): `repeat_rx_tx(RX, SWEEP, 2)`. -/
theorem sweep_points_ascending_within_grid_witness :
    (∃ n, (repeat_rx_tx 0 radio_mode_t.RX repeat_mode_t.SWEEP 2 ⟨0, 0, 0, 0⟩ n).loc
      = Loc.returned) ∧
    (∀ n, (repeat_rx_tx 0 radio_mode_t.RX repeat_mode_t.SWEEP 2 ⟨0, 0, 0, 0⟩ n).loc
        = Loc.returned →
      ((points (repeat_rx_tx 0 radio_mode_t.RX repeat_mode_t.SWEEP 2 ⟨0, 0, 0, 0⟩ n).trace).length
        : Int) = 2 ∧
      (points (repeat_rx_tx 0 radio_mode_t.RX repeat_mode_t.SWEEP 2 ⟨0, 0, 0, 0⟩ n).trace).head?
        = some (22, 20, 0) ∧
      (∀ p ∈ points (repeat_rx_tx 0 radio_mode_t.RX repeat_mode_t.SWEEP 2 ⟨0, 0, 0, 0⟩ n).trace,
        p.1 = 22 ∧ 20 ≤ p.2.1 ∧ p.2.1 < 32 ∧ p.2.2 < 32) ∧
      ((2 : Int) ≤ 384 → List.Pairwise lex_lt
        (points (repeat_rx_tx 0 radio_mode_t.RX repeat_mode_t.SWEEP 2 ⟨0, 0, 0, 0⟩ n).trace))) ∧
    (repeat_rx_tx 0 radio_mode_t.RX repeat_mode_t.SWEEP 2 ⟨0, 0, 0, 0⟩ 20).loc = Loc.returned ∧
    (repeat_rx_tx 0 radio_mode_t.RX repeat_mode_t.SWEEP 2 ⟨0, 0, 0, 0⟩ 20).trace
      = [Event.receive_packet 22 20 0, Event.receive_packet 22 20 1] :=
  sweep_points_ascending_within_grid 0 radio_mode_t.RX 2 ⟨0, 0, 0, 0⟩ (by decide) (by decide)

/-! ### Independence of the direction and of the buffer contents on entry -/

theorem step_same_walk (sm : Nat) (total : Int) (s t : State) (h : same_walk s t) :
    same_walk (step ⟨sm, radio_mode_t.TX, repeat_mode_t.SWEEP, total⟩ s)
      (step ⟨sm, radio_mode_t.RX, repeat_mode_t.SWEEP, total⟩ t) := by
  obtain ⟨sl, sc, smid, sf, si, spc, spkt, str⟩ := s
  obtain ⟨tl, tc, tmid, tf, ti, tpc, tpkt, ttr⟩ := t
  simp only [same_walk] at h
  obtain ⟨rfl, rfl, rfl, rfl, rfl, rfl, htr⟩ := h
  cases sl <;> simp only [step, tuning_range, same_walk] <;> (try split_ifs) <;>
    simp_all [points, Event.point]

theorem run_same_walk (sm : Nat) (total : Int) (n : Nat) (s t : State) (h : same_walk s t) :
    same_walk (run ⟨sm, radio_mode_t.TX, repeat_mode_t.SWEEP, total⟩ n s)
      (run ⟨sm, radio_mode_t.RX, repeat_mode_t.SWEEP, total⟩ n t) := by
  induction n generalizing s t with
  | zero => exact h
  | succ n ih => exact ih _ _ (step_same_walk sm total s t h)

/-- C7: in SWEEP mode the tuning points visited do not depend on the direction: for
every `total_packets`, at every moment of the runs, the list of the tuning points passed
to `send_packet` in the TX run equals the list of the tuning points passed to
`receive_packet` in the RX run. -/
theorem sweep_points_direction_independent (SOLAR_MODE : Nat) (total_packets : Int)
    (tx_packet tx_packet2 : Packet) (n : Nat) :
    points (repeat_rx_tx SOLAR_MODE radio_mode_t.TX repeat_mode_t.SWEEP total_packets
        tx_packet n).trace
      = points (repeat_rx_tx SOLAR_MODE radio_mode_t.RX repeat_mode_t.SWEEP total_packets
        tx_packet2 n).trace ∧
    (repeat_rx_tx SOLAR_MODE radio_mode_t.TX repeat_mode_t.SWEEP total_packets tx_packet n).loc
      = (repeat_rx_tx SOLAR_MODE radio_mode_t.RX repeat_mode_t.SWEEP total_packets
        tx_packet2 n).loc := by
  have h := run_same_walk SOLAR_MODE total_packets n (init tx_packet) (init tx_packet2)
    ⟨rfl, rfl, rfl, rfl, rfl, rfl, rfl⟩
  exact ⟨h.2.2.2.2.2.2, h.1⟩

theorem step_same_but_packet (env : Env) (s t : State) (h : same_but_packet s t) :
    same_but_packet (step env s) (step env t) := by
  obtain ⟨sl, sc, smid, sf, si, spc, spkt, str⟩ := s
  obtain ⟨tl, tc, tmid, tf, ti, tpc, tpkt, ttr⟩ := t
  simp only [same_but_packet] at h
  obtain ⟨rfl, rfl, rfl, rfl, rfl, rfl, rfl⟩ := h
  obtain ⟨sm, rm, pm, total⟩ := env
  cases sl <;> simp only [step, same_but_packet] <;> (try split_ifs) <;> simp_all

theorem run_same_but_packet (env : Env) (n : Nat) (s t : State) (h : same_but_packet s t) :
    same_but_packet (run env n s) (run env n t) := by
  induction n generalizing s t with
  | zero => exact h
  | succ n ih => exact ih _ _ (step_same_but_packet env s t h)

theorem repeat_rx_tx_same_but_packet (sm : Nat) (rm : radio_mode_t) (pm : repeat_mode_t)
    (total : Int) (tx_packet tx_packet2 : Packet) (n : Nat) :
    same_but_packet (repeat_rx_tx sm rm pm total tx_packet n)
      (repeat_rx_tx sm rm pm total tx_packet2 n) :=
  run_same_but_packet _ n (init tx_packet) (init tx_packet2) ⟨rfl, rfl, rfl, rfl, rfl, rfl, rfl⟩

theorem run_calls_packet_independent (sm fuel : Nat)
    (calls : List (radio_mode_t × repeat_mode_t × Int)) (tx_packet tx_packet2 : Packet) :
    run_calls sm fuel calls tx_packet = run_calls sm fuel calls tx_packet2 := by
  induction calls generalizing tx_packet tx_packet2 with
  | nil => rfl
  | cons c rest ih =>
    obtain ⟨rm, pm, total⟩ := c
    have h := repeat_rx_tx_same_but_packet sm rm pm total tx_packet tx_packet2 fuel
    simp only [run_calls]
    rw [h.1, h.2.2.2.2.2.2,
      ih (repeat_rx_tx sm rm pm total tx_packet fuel).tx_packet
        (repeat_rx_tx sm rm pm total tx_packet2 fuel).tx_packet]

/-- C8: the calls of a run of `repeat_rx_tx` are determined by its arguments alone.  At
every moment the trace of calls (kind, tuning point and, for sends, length and packet
bytes) and the control point are the same whatever the global `tx_packet` held on
entry; hence the calls of any sequence of runs, each started when the one before has
returned, do not depend on it either.  Every TX run makes a first radio call, and that
call is a `send_packet` whose packet carries the sequence byte 0. -/
theorem calls_determined_by_arguments (SOLAR_MODE : Nat) (radio_mode : radio_mode_t)
    (repeat_mode : repeat_mode_t) (total_packets : Int) (tx_packet tx_packet2 : Packet)
    (n : Nat) :
    (repeat_rx_tx SOLAR_MODE radio_mode repeat_mode total_packets tx_packet n).trace
      = (repeat_rx_tx SOLAR_MODE radio_mode repeat_mode total_packets tx_packet2 n).trace ∧
    (repeat_rx_tx SOLAR_MODE radio_mode repeat_mode total_packets tx_packet n).loc
      = (repeat_rx_tx SOLAR_MODE radio_mode repeat_mode total_packets tx_packet2 n).loc ∧
    (∀ (fuel : Nat) (calls : List (radio_mode_t × repeat_mode_t × Int)),
      run_calls SOLAR_MODE fuel calls tx_packet = run_calls SOLAR_MODE fuel calls tx_packet2) ∧
    (∃ m c f g,
      (radio_calls (repeat_rx_tx SOLAR_MODE radio_mode_t.TX repeat_mode total_packets
        tx_packet m).trace)[0]? = some (Event.send_packet c f g ⟨0, c, f, g⟩ 4)) ∧
    (∀ e, (radio_calls (repeat_rx_tx SOLAR_MODE radio_mode_t.TX repeat_mode total_packets
        tx_packet n).trace)[0]? = some e →
      ∃ c f g, e = Event.send_packet c f g ⟨0, c, f, g⟩ 4) := by
  have h := repeat_rx_tx_same_but_packet SOLAR_MODE radio_mode repeat_mode total_packets
    tx_packet tx_packet2 n
  have hfirst : ∀ m e, (radio_calls (repeat_rx_tx SOLAR_MODE radio_mode_t.TX repeat_mode
      total_packets tx_packet m).trace)[0]? = some e →
      ∃ c f g, e = Event.send_packet c f g ⟨0, c, f, g⟩ 4 := by
    intro m e he
    have := getElem_radio_calls_run _ tx_packet m 0 e he
    subst this
    refine ⟨(visit_point ⟨SOLAR_MODE, radio_mode_t.TX, repeat_mode, total_packets⟩ 0).1,
      (visit_point ⟨SOLAR_MODE, radio_mode_t.TX, repeat_mode, total_packets⟩ 0).2.1,
      (visit_point ⟨SOLAR_MODE, radio_mode_t.TX, repeat_mode, total_packets⟩ 0).2.2, ?_⟩
    simp [radio_event, toUint8, wrapInt32]
  refine ⟨h.2.2.2.2.2.2, h.1,
    fun fuel calls => run_calls_packet_independent SOLAR_MODE fuel calls tx_packet tx_packet2,
    ?_, hfirst n⟩
  obtain ⟨m, hm⟩ := radio_call_made
    ⟨SOLAR_MODE, radio_mode_t.TX, repeat_mode, total_packets⟩ tx_packet 0
    (fun j h1 h2 => by omega)
  obtain ⟨c, f, g, hc⟩ := hfirst m _ hm
  exact ⟨m, c, f, g, by rw [← hc]; exact hm⟩

/-! ### The dispatch of `main` -/

theorem radio_event_fixed_tx (sm : Nat) (total : Int) (k : Nat) :
    radio_event ⟨sm, radio_mode_t.TX, repeat_mode_t.FIXED, total⟩ k
      = Event.send_packet 22 23 4 ⟨k % 256, 22, 23, 4⟩ 4 := by
  have hp := visit_point_fixed sm radio_mode_t.TX total k
  simp [radio_event, hp, fixed_point, toUint8_wrapInt32]

theorem radio_event_fixed_rx (sm : Nat) (total : Int) (k : Nat) :
    radio_event ⟨sm, radio_mode_t.RX, repeat_mode_t.FIXED, total⟩ k
      = Event.receive_packet 22 22 22 := by
  have hp := visit_point_fixed sm radio_mode_t.RX total k
  simp [radio_event, hp, fixed_point]

/-- The trace of `main` with `MODE = 2`: the calls of the TX run, followed, once it has
returned, by the calls of the RX run. -/
theorem main_trace_mode2 (sm fuel : Nat) (tx0 : Packet) :
    main_trace true sm 2 fuel tx0
      = (repeat_rx_tx sm radio_mode_t.TX repeat_mode_t.FIXED 100 tx0 fuel).trace ++
        (if (repeat_rx_tx sm radio_mode_t.TX repeat_mode_t.FIXED 100 tx0 fuel).loc
            = Loc.returned then
          (repeat_rx_tx sm radio_mode_t.RX repeat_mode_t.FIXED (-1)
            (repeat_rx_tx sm radio_mode_t.TX repeat_mode_t.FIXED 100 tx0 fuel).tx_packet
            fuel).trace
        else []) := by
  simp [main_trace, main_calls, run_calls, tx_repeat_mode, rx_repeat_mode]

/-- C9 (counterexample): with `MODE = 2` the first call of `repeat_rx_tx` in `main` has
direction TX and the second has direction RX, and the first radio call of the program is
`send_packet(22, 23, 4, {0, 22, 23, 4}, 4)`, not a `receive_packet`. -/
theorem main_mode2_transmits_first :
    (main_calls 2).map (fun c => c.1) = [radio_mode_t.TX, radio_mode_t.RX] ∧
    (radio_calls (main_trace true 0 2 10 ⟨0, 0, 0, 0⟩)).head?
      = some (Event.send_packet 22 23 4 ⟨0, 22, 23, 4⟩ 4) ∧
    ((radio_calls (main_trace true 0 2 10 ⟨0, 0, 0, 0⟩)).head?.map Event.is_receive)
      = some false := by
  decide

/-- C9 (amended): with `MODE = 2`, `main` calls `repeat_rx_tx(TX, tx_repeat_mode, 100)`
first and `repeat_rx_tx(RX, rx_repeat_mode, -1)` after it.  Of the radio calls of the
program, those with numbers `k < 100` are the calls `send_packet(22, 23, 4, {k mod 256,
22, 23, 4}, 4)` and those with numbers `k ≥ 100` are `receive_packet(22, 22, 22)`; and the
program does get past its first 100 radio calls. -/
theorem main_mode2_order :
    main_calls 2
      = [(radio_mode_t.TX, repeat_mode_t.FIXED, 100), (radio_mode_t.RX, repeat_mode_t.FIXED, -1)] ∧
    (∀ (SOLAR_MODE fuel : Nat) (tx_packet : Packet) (k : Nat) (e : Event),
      (radio_calls (main_trace true SOLAR_MODE 2 fuel tx_packet))[k]? = some e →
      (k < 100 → e = Event.send_packet 22 23 4 ⟨k % 256, 22, 23, 4⟩ 4) ∧
      (100 ≤ k → e = Event.receive_packet 22 22 22)) ∧
    (∀ (SOLAR_MODE : Nat) (tx_packet : Packet),
      ∃ fuel, 100 < (radio_calls (main_trace true SOLAR_MODE 2 fuel tx_packet)).length) := by
  refine ⟨by decide, fun sm fuel tx0 k e he => ?_, fun sm tx0 => ?_⟩
  · obtain ⟨-, hret, hpre⟩ :=
      returns_in_visit ⟨sm, radio_mode_t.TX, repeat_mode_t.FIXED, 100⟩ tx0 99
        (fun j _ hj => by simp only [wrapInt32]; omega) (by simp only [wrapInt32]; omega)
    have hc1 := radio_calls_run ⟨sm, radio_mode_t.TX, repeat_mode_t.FIXED, 100⟩ tx0 fuel
    have hc2 := fun pkt =>
      radio_calls_run ⟨sm, radio_mode_t.RX, repeat_mode_t.FIXED, -1⟩ pkt fuel
    rw [main_trace_mode2, radio_calls_append] at he
    simp only [repeat_rx_tx] at he hc1 hc2
    by_cases hloc : (run ⟨sm, radio_mode_t.TX, repeat_mode_t.FIXED, 100⟩ fuel (init tx0)).loc
        = Loc.returned
    · rw [if_pos hloc] at he
      have h100 : radio_calls (run ⟨sm, radio_mode_t.TX, repeat_mode_t.FIXED, 100⟩ fuel
          (init tx0)).trace
          = (List.range 100).map (radio_event ⟨sm, radio_mode_t.TX, repeat_mode_t.FIXED, 100⟩) := by
        rw [hret fuel hloc]
        simp only [return_state, radio_calls_visits]
      rw [h100] at he
      refine ⟨fun hk => ?_, fun hk => ?_⟩
      · rw [List.getElem?_append_left (by simpa using hk), List.getElem?_map,
          List.getElem?_range hk] at he
        simp only [Option.map_some', Option.some.injEq] at he
        rw [← he, radio_event_fixed_tx]
      · rw [List.getElem?_append_right (by simpa using hk)] at he
        have := getElem_radio_calls_run _ _ fuel _ e he
        rw [this, radio_event_fixed_rx]
    · rw [if_neg hloc] at he
      simp only [radio_calls, List.filter_nil, List.append_nil] at he
      have hk := getElem_radio_calls_run _ tx0 fuel k e he
      obtain ⟨rest, hrest⟩ := hpre fuel
      have hlen := congrArg (fun l => (radio_calls l).length) hrest
      simp only [radio_calls_visits, radio_calls_append, List.length_map, List.length_range,
        List.length_append] at hlen
      have hlt : k < (radio_calls (run ⟨sm, radio_mode_t.TX, repeat_mode_t.FIXED, 100⟩ fuel
          (init tx0)).trace).length := by
        by_contra hge
        rw [List.getElem?_eq_none (by simpa [radio_calls] using hge)] at he
        exact absurd he (by simp)
      exact ⟨fun _ => by rw [hk, radio_event_fixed_tx], fun h100 => by omega⟩
  · obtain ⟨⟨n1, hn1⟩, hret, -⟩ :=
      returns_in_visit ⟨sm, radio_mode_t.TX, repeat_mode_t.FIXED, 100⟩ tx0 99
        (fun j _ hj => by simp only [wrapInt32]; omega) (by simp only [wrapInt32]; omega)
    obtain ⟨n2, hn2⟩ := radio_call_made ⟨sm, radio_mode_t.RX, repeat_mode_t.FIXED, -1⟩
      (return_state ⟨sm, radio_mode_t.TX, repeat_mode_t.FIXED, 100⟩ tx0 99).tx_packet 0
      (fun j h1 h2 => by omega)
    have hs1 : repeat_rx_tx sm radio_mode_t.TX repeat_mode_t.FIXED 100 tx0 (n1 + n2)
        = return_state ⟨sm, radio_mode_t.TX, repeat_mode_t.FIXED, 100⟩ tx0 99 := by
      simp only [repeat_rx_tx]
      rw [run_add, run_returned _ n2 _ hn1]
      exact hret n1 hn1
    obtain ⟨rest, hrest⟩ := run_trace ⟨sm, radio_mode_t.RX, repeat_mode_t.FIXED, -1⟩ n1
      (run ⟨sm, radio_mode_t.RX, repeat_mode_t.FIXED, -1⟩ n2
        (init (return_state ⟨sm, radio_mode_t.TX, repeat_mode_t.FIXED, 100⟩ tx0 99).tx_packet))
    have hlen2 : 0 < (radio_calls (run ⟨sm, radio_mode_t.RX, repeat_mode_t.FIXED, -1⟩ n2
        (init (return_state ⟨sm, radio_mode_t.TX, repeat_mode_t.FIXED, 100⟩ tx0
          99).tx_packet)).trace).length := by
      by_contra hge
      rw [List.getElem?_eq_none (by omega)] at hn2
      exact absurd hn2 (by simp)
    refine ⟨n1 + n2, ?_⟩
    have hloc : (return_state ⟨sm, radio_mode_t.TX, repeat_mode_t.FIXED, 100⟩ tx0 99).loc
        = Loc.returned := rfl
    rw [main_trace_mode2, hs1, if_pos hloc]
    simp only [repeat_rx_tx]
    rw [Nat.add_comm n1 n2, run_add, hrest]
    simp only [radio_calls_append, List.length_append]
    have h100 : (radio_calls (return_state ⟨sm, radio_mode_t.TX, repeat_mode_t.FIXED, 100⟩ tx0
        99).trace).length = 100 := by
      simp [return_state, radio_calls_visits]
    omega

/-! ### The position of each call in SWEEP mode -/

theorem run_succ_eq (env : Env) (n : Nat) (s : State) :
    run env (n + 1) s = step env (run env n s) := by
  rw [run_add]; rfl

/-- Only the transition of lines 201-204 changes the packet counter, and it adds 1. -/
theorem step_packet_counter (env : Env) (s : State) :
    (s.loc = Loc.count → (step env s).packet_counter = wrapInt32 (s.packet_counter + 1)) ∧
    (s.loc ≠ Loc.count → (step env s).packet_counter = s.packet_counter) := by
  obtain ⟨sl, sc, smid, sf, si, spc, spkt, str⟩ := s
  cases sl <;> simp only [step] <;> (try split_ifs) <;> simp

/-- Only the transition of lines 190-199 makes a radio call; it makes one and leads to
the increment of the packet counter. -/
theorem step_calls_made (env : Env) (s : State) :
    (s.loc = Loc.radio →
      (step env s).loc = Loc.count ∧ calls_made (step env s) = calls_made s + 1) ∧
    (s.loc ≠ Loc.radio →
      (step env s).loc ≠ Loc.count ∧ calls_made (step env s) = calls_made s) := by
  obtain ⟨sl, sc, smid, sf, si, spc, spkt, str⟩ := s
  cases sl <;> simp only [step] <;> (try split_ifs) <;> simp [calls_made, radio_calls]

theorem step_counter_tracks_calls (env : Env) (s : State) (h : counter_tracks_calls s) :
    counter_tracks_calls (step env s) := by
  obtain ⟨hc1, hc2⟩ := step_packet_counter env s
  obtain ⟨hr1, hr2⟩ := step_calls_made env s
  unfold counter_tracks_calls at h ⊢
  by_cases hrad : s.loc = Loc.radio
  · obtain ⟨hl, hm⟩ := hr1 hrad
    have hne : s.loc ≠ Loc.count := by rw [hrad]; decide
    rw [if_neg hne] at h
    rw [if_pos hl, hc2 hne, hm, h]
    refine ⟨by omega, ?_⟩
    push_cast
    congr 1
    omega
  · obtain ⟨hl, hm⟩ := hr2 hrad
    rw [if_neg hl, hm]
    by_cases hcnt : s.loc = Loc.count
    · rw [if_pos hcnt] at h
      rw [hc1 hcnt, h.2]
      have := h.1
      simp only [wrapInt32]
      omega
    · rw [if_neg hcnt] at h
      rw [hc2 hcnt, h]

theorem run_counter_tracks_calls (env : Env) (tx_packet : Packet) (n : Nat) :
    counter_tracks_calls (run env n (init tx_packet)) := by
  induction n with
  | zero => simp [run, counter_tracks_calls, init, calls_made, radio_calls, wrapInt32]
  | succ n ih =>
    rw [run_succ_eq]
    exact step_counter_tracks_calls env _ ih

/-- A run with a bound `K + 1 ≤ 2^31 - 1` never has more than `K + 1` radio calls. -/
theorem calls_made_le_bound (sm : Nat) (rm : radio_mode_t) (pm : repeat_mode_t) (K : Nat)
    (tx_packet : Packet) (n : Nat) (hK : K < 2147483647) :
    calls_made (repeat_rx_tx sm rm pm ((K : Int) + 1) tx_packet n) ≤ K + 1 := by
  obtain ⟨-, -, hpre⟩ :=
    returns_in_visit ⟨sm, rm, pm, (K : Int) + 1⟩ tx_packet K
      (fun j _ hj => by simp only [wrapInt32]; omega) (by simp only [wrapInt32]; omega)
  obtain ⟨rest, hrest⟩ := hpre n
  have := congrArg (fun l => (radio_calls l).length) hrest
  simp only [radio_calls_visits, radio_calls_append, List.length_map, List.length_range,
    List.length_append] at this
  simp only [calls_made, repeat_rx_tx]
  omega

/-- C11 (counterexample): after 10 transitions `repeat_rx_tx(TX, FIXED, 3)` stands
between its first `send_packet` call and the increment of line 201: one radio call is
completed and the packet counter is 0.  And `repeat_rx_tx(RX, FIXED, -1)` reaches a
state with 2147483648 radio calls completed in which the packet counter, a 32-bit `int`,
is -2147483648. -/
theorem packet_counter_behind_calls :
    (repeat_rx_tx 0 radio_mode_t.TX repeat_mode_t.FIXED 3 ⟨0, 0, 0, 0⟩ 10).loc = Loc.count ∧
    calls_made (repeat_rx_tx 0 radio_mode_t.TX repeat_mode_t.FIXED 3 ⟨0, 0, 0, 0⟩ 10) = 1 ∧
    (repeat_rx_tx 0 radio_mode_t.TX repeat_mode_t.FIXED 3 ⟨0, 0, 0, 0⟩ 10).packet_counter = 0 ∧
    (∃ n,
      calls_made (repeat_rx_tx 0 radio_mode_t.RX repeat_mode_t.FIXED (-1) ⟨0, 0, 0, 0⟩ n)
        = 2147483648 ∧
      (repeat_rx_tx 0 radio_mode_t.RX repeat_mode_t.FIXED (-1) ⟨0, 0, 0, 0⟩ n).packet_counter
        = -2147483648) := by
  refine ⟨by decide, by decide, by decide, ?_⟩
  obtain ⟨K, hK⟩ : ∃ K : Nat, K = 2147483648 := ⟨_, rfl⟩
  obtain ⟨n, -, hn⟩ := reach_visit ⟨0, radio_mode_t.RX, repeat_mode_t.FIXED, -1⟩ ⟨0, 0, 0, 0⟩ K
    (fun j _ hj => by simp only [wrapInt32]; omega)
  refine ⟨n, ?_, ?_⟩
  · simp only [calls_made, repeat_rx_tx]
    rw [hn]
    simp only [visit_state, radio_calls_visits, List.length_map, List.length_range]
    exact hK
  · simp only [repeat_rx_tx]
    rw [hn]
    simp only [visit_state, wrapInt32]
    omega

/-- C11 (amended): in every run of `repeat_rx_tx` the packet counter starts at 0, is
changed only by the increment of line 201, which adds 1, and that increment is the
transition right after each radio call.  As long as fewer than `2^31` radio calls are
completed (always so when `1 ≤ total_packets ≤ 2^31 - 1`), the packet counter equals the
number of radio calls completed at every control point, except between a radio call and
its increment, where it is that number less 1; so at the moment of each radio call it
equals the number of earlier calls, and it does not decrease.  Here `s` is the state
after `n` transitions and `t` the state after `n + 1`. -/
theorem packet_counter_tracks_calls (SOLAR_MODE : Nat) (radio_mode : radio_mode_t)
    (repeat_mode : repeat_mode_t) (total_packets : Int) (tx_packet : Packet) (n : Nat)
    (s t : State)
    (hs : s = repeat_rx_tx SOLAR_MODE radio_mode repeat_mode total_packets tx_packet n)
    (ht : t = repeat_rx_tx SOLAR_MODE radio_mode repeat_mode total_packets tx_packet (n + 1)) :
    (repeat_rx_tx SOLAR_MODE radio_mode repeat_mode total_packets tx_packet 0).packet_counter
      = 0 ∧
    calls_made (repeat_rx_tx SOLAR_MODE radio_mode repeat_mode total_packets tx_packet 0) = 0 ∧
    (s.loc = Loc.count → t.packet_counter = wrapInt32 (s.packet_counter + 1)) ∧
    (s.loc ≠ Loc.count → t.packet_counter = s.packet_counter) ∧
    (s.loc = Loc.radio → t.loc = Loc.count ∧ calls_made t = calls_made s + 1) ∧
    (s.loc ≠ Loc.radio → t.loc ≠ Loc.count ∧ calls_made t = calls_made s) ∧
    (calls_made s < 2147483648 →
      (s.loc ≠ Loc.count → s.packet_counter = (calls_made s : Int)) ∧
      (s.loc = Loc.count →
        s.packet_counter = (calls_made s : Int) - 1 ∧ t.packet_counter = s.packet_counter + 1)) ∧
    (calls_made t < 2147483648 → s.packet_counter ≤ t.packet_counter) ∧
    (1 ≤ total_packets → total_packets ≤ 2147483647 → calls_made s < 2147483648) := by
  have hsucc : t = step ⟨SOLAR_MODE, radio_mode, repeat_mode, total_packets⟩ s := by
    rw [hs, ht]; exact run_succ_eq _ n _
  have hinv : counter_tracks_calls s := by rw [hs]; exact run_counter_tracks_calls _ tx_packet n
  obtain ⟨hc1, hc2⟩ := step_packet_counter ⟨SOLAR_MODE, radio_mode, repeat_mode, total_packets⟩ s
  obtain ⟨hr1, hr2⟩ := step_calls_made ⟨SOLAR_MODE, radio_mode, repeat_mode, total_packets⟩ s
  rw [← hsucc] at hc1 hc2 hr1 hr2
  unfold counter_tracks_calls at hinv
  refine ⟨rfl, rfl, hc1, hc2, hr1, hr2, fun hlt => ⟨fun hne => ?_, fun heq => ?_⟩, fun hlt => ?_,
    fun h1 h2 => ?_⟩
  · rw [if_neg hne] at hinv
    rw [hinv]
    simp only [wrapInt32]
    omega
  · rw [if_pos heq] at hinv
    obtain ⟨hpos, hpc⟩ := hinv
    have hpc2 : s.packet_counter = (calls_made s : Int) - 1 := by
      rw [hpc]
      simp only [wrapInt32]
      omega
    refine ⟨hpc2, ?_⟩
    rw [hc1 heq, hpc2]
    simp only [wrapInt32]
    omega
  · by_cases heq : s.loc = Loc.count
    · rw [if_pos heq] at hinv
      obtain ⟨hpos, hpc⟩ := hinv
      have hne : s.loc ≠ Loc.radio := by rw [heq]; decide
      have hsame := (hr2 hne).2
      rw [hc1 heq, hpc]
      simp only [wrapInt32]
      omega
    · rw [hc2 heq]
  · obtain ⟨K, rfl⟩ : ∃ K : Nat, total_packets = (K : Int) + 1 :=
      ⟨(total_packets - 1).toNat, by omega⟩
    have := calls_made_le_bound SOLAR_MODE radio_mode repeat_mode K tx_packet n (by omega)
    rw [hs]
    omega

/-- Witness of C11 (amended): `repeat_rx_tx(TX, FIXED, 3)` at its second `send_packet`
call (after 28 transitions): one radio call is completed and the packet counter is 1; the
transition makes the call and leads to the increment. -/
theorem packet_counter_tracks_calls_witness :
    (repeat_rx_tx 0 radio_mode_t.TX repeat_mode_t.FIXED 3 ⟨0, 0, 0, 0⟩ 28).loc = Loc.radio ∧
    (repeat_rx_tx 0 radio_mode_t.TX repeat_mode_t.FIXED 3 ⟨0, 0, 0, 0⟩ 28).packet_counter = 1 ∧
    (repeat_rx_tx 0 radio_mode_t.TX repeat_mode_t.FIXED 3 ⟨0, 0, 0, 0⟩ 28).packet_counter
      = (calls_made (repeat_rx_tx 0 radio_mode_t.TX repeat_mode_t.FIXED 3 ⟨0, 0, 0, 0⟩ 28)
        : Int) ∧
    (repeat_rx_tx 0 radio_mode_t.TX repeat_mode_t.FIXED 3 ⟨0, 0, 0, 0⟩ 29).loc = Loc.count ∧
    calls_made (repeat_rx_tx 0 radio_mode_t.TX repeat_mode_t.FIXED 3 ⟨0, 0, 0, 0⟩ 29)
      = calls_made (repeat_rx_tx 0 radio_mode_t.TX repeat_mode_t.FIXED 3 ⟨0, 0, 0, 0⟩ 28) + 1 :=
  have h := packet_counter_tracks_calls 0 radio_mode_t.TX repeat_mode_t.FIXED 3 ⟨0, 0, 0, 0⟩ 28
    _ _ rfl rfl
  ⟨by decide, by decide, (h.2.2.2.2.2.2.1 (by decide)).1 (by decide),
    (h.2.2.2.2.1 (by decide)).1, (h.2.2.2.2.1 (by decide)).2⟩

theorem step_loops_in_range (env : Env) (s : State)
    (h : loops_in_range (tuning_range env.radio_mode env.repeat_mode) s) :
    loops_in_range (tuning_range env.radio_mode env.repeat_mode) (step env s) := by
  obtain ⟨sm, rm, pm, total⟩ := env
  obtain ⟨sl, sc, smid, sf, si, spc, spkt, str⟩ := s
  obtain ⟨hb1, hb2, hb3, hb4, hb5, hb6⟩ := tuning_range_bounds rm pm
  simp only [loops_in_range] at h
  obtain ⟨h1, h2, h3, h4, h5, h6⟩ := h
  cases sl <;> simp only [step, loops_in_range] <;> (try split_ifs) <;>
    simp only [Loc.in_coarse_body, Loc.in_mid_body, Loc.in_fine_body, Bool.false_eq_true,
      false_implies, true_implies, and_true] at h4 h5 h6 ⊢ <;>
    and_intros <;> omega

theorem run_loops_in_range (env : Env) (tx_packet : Packet) (n : Nat) :
    loops_in_range (tuning_range env.radio_mode env.repeat_mode) (run env n (init tx_packet)) := by
  induction n with
  | zero =>
    obtain ⟨sm, rm, pm, total⟩ := env
    cases rm <;> cases pm <;> simp [run, init, loops_in_range, tuning_range, Loc.in_coarse_body,
      Loc.in_mid_body, Loc.in_fine_body]
  | succ n ih =>
    rw [run_succ_eq]
    exact step_loops_in_range env _ ih

set_option maxRecDepth 100000 in
/-- The end of the first row of `repeat_rx_tx(RX, SWEEP, 40)`, by evaluation. -/
theorem sweep_first_row_end :
    (repeat_rx_tx 0 radio_mode_t.RX repeat_mode_t.SWEEP 40 ⟨0, 0, 0, 0⟩ 294).loc = Loc.mid_incr ∧
      (repeat_rx_tx 0 radio_mode_t.RX repeat_mode_t.SWEEP 40 ⟨0, 0, 0, 0⟩ 294).cfg_fine = 32 ∧
      (repeat_rx_tx 0 radio_mode_t.RX repeat_mode_t.SWEEP 40 ⟨0, 0, 0, 0⟩ 294).cfg_mid = 20 ∧
      (repeat_rx_tx 0 radio_mode_t.RX repeat_mode_t.SWEEP 40 ⟨0, 0, 0, 0⟩ 295).cfg_mid = 21 := by
  decide

/-- C12: the tuning range computed for each of the four (direction, mode) combinations is
TX FIXED: coarse [22,23), mid [23,24), fine [4,5); RX FIXED: coarse [22,23), mid [22,23),
fine [22,23); SWEEP, either direction: coarse [22,23), mid [20,32), fine [0,32).  So
`start < stop` in all three dimensions, with `stop = start + 1` (no reduction modulo 256)
in FIXED mode.  At every moment of every run the loop variables `cfg_coarse`, `cfg_mid`,
`cfg_fine` are at most 32, and each of their increments adds 1 without wrap-around.  Here
`r` is the range of the run, `s` its state after `n` transitions and `t` its state after
`n + 1`. -/
theorem tuning_ranges_and_loop_variables (SOLAR_MODE : Nat) (radio_mode : radio_mode_t)
    (repeat_mode : repeat_mode_t) (total_packets : Int) (tx_packet : Packet) (n : Nat)
    (r : Range) (s t : State)
    (hr : r = tuning_range radio_mode repeat_mode)
    (hs : s = repeat_rx_tx SOLAR_MODE radio_mode repeat_mode total_packets tx_packet n)
    (ht : t = repeat_rx_tx SOLAR_MODE radio_mode repeat_mode total_packets tx_packet (n + 1)) :
    tuning_range radio_mode_t.TX repeat_mode_t.FIXED
      = { cfg_coarse_start := 22, cfg_mid_start := 23, cfg_fine_start := 4,
          cfg_coarse_stop := 23, cfg_mid_stop := 24, cfg_fine_stop := 5 } ∧
    tuning_range radio_mode_t.RX repeat_mode_t.FIXED
      = { cfg_coarse_start := 22, cfg_mid_start := 22, cfg_fine_start := 22,
          cfg_coarse_stop := 23, cfg_mid_stop := 23, cfg_fine_stop := 23 } ∧
    tuning_range radio_mode_t.TX repeat_mode_t.SWEEP
      = { cfg_coarse_start := 22, cfg_mid_start := 20, cfg_fine_start := 0,
          cfg_coarse_stop := 23, cfg_mid_stop := 32, cfg_fine_stop := 32 } ∧
    tuning_range radio_mode_t.RX repeat_mode_t.SWEEP
      = { cfg_coarse_start := 22, cfg_mid_start := 20, cfg_fine_start := 0,
          cfg_coarse_stop := 23, cfg_mid_stop := 32, cfg_fine_stop := 32 } ∧
    (r.cfg_coarse_start < r.cfg_coarse_stop ∧ r.cfg_mid_start < r.cfg_mid_stop ∧
      r.cfg_fine_start < r.cfg_fine_stop) ∧
    (repeat_mode = repeat_mode_t.FIXED →
      r.cfg_coarse_stop = r.cfg_coarse_start + 1 ∧ r.cfg_mid_stop = r.cfg_mid_start + 1 ∧
      r.cfg_fine_stop = r.cfg_fine_start + 1) ∧
    (s.cfg_coarse ≤ 32 ∧ s.cfg_mid ≤ 32 ∧ s.cfg_fine ≤ 32) ∧
    (s.loc = Loc.coarse_incr → t.cfg_coarse = s.cfg_coarse + 1) ∧
    (s.loc = Loc.mid_incr → t.cfg_mid = s.cfg_mid + 1) ∧
    (s.loc = Loc.fine_incr → t.cfg_fine = s.cfg_fine + 1) := by
  have hsucc : t = step ⟨SOLAR_MODE, radio_mode, repeat_mode, total_packets⟩ s := by
    rw [hs, ht]; exact run_succ_eq _ n _
  have hinv : loops_in_range r s := by
    rw [hr, hs]
    exact run_loops_in_range ⟨SOLAR_MODE, radio_mode, repeat_mode, total_packets⟩ tx_packet n
  obtain ⟨h1, h2, h3, h4, h5, h6⟩ := hinv
  have hstop : r.cfg_coarse_stop ≤ 32 ∧ r.cfg_mid_stop ≤ 32 ∧ r.cfg_fine_stop ≤ 32 := by
    rw [hr]
    cases radio_mode <;> cases repeat_mode <;> decide
  refine ⟨by decide, by decide, by decide, by decide, ?_, ?_, ⟨by omega, by omega, by omega⟩,
    fun hl => ?_, fun hl => ?_, fun hl => ?_⟩
  · rw [hr]
    cases radio_mode <;> cases repeat_mode <;> decide
  · rintro rfl
    rw [hr]
    cases radio_mode <;> decide
  · have hlt := h4 (by rw [hl]; rfl)
    rw [hsucc]
    simp only [step, hl]
    omega
  · have hlt := h5 (by rw [hl]; rfl)
    rw [hsucc]
    simp only [step, hl]
    omega
  · have hlt := h6 (by rw [hl]; rfl)
    rw [hsucc]
    simp only [step, hl]
    omega

/-- Witness of C12: the value 32 is taken.  `repeat_rx_tx(RX, SWEEP, 40)` leaves its first
row after 294 transitions with `cfg_fine = 32`, and the increment of `cfg_mid` takes it
from 20 to 21. -/
theorem tuning_ranges_and_loop_variables_witness :
    (repeat_rx_tx 0 radio_mode_t.RX repeat_mode_t.SWEEP 40 ⟨0, 0, 0, 0⟩ 294).loc
      = Loc.mid_incr ∧
    (repeat_rx_tx 0 radio_mode_t.RX repeat_mode_t.SWEEP 40 ⟨0, 0, 0, 0⟩ 294).cfg_fine = 32 ∧
    (repeat_rx_tx 0 radio_mode_t.RX repeat_mode_t.SWEEP 40 ⟨0, 0, 0, 0⟩ 294).cfg_mid = 20 ∧
    (repeat_rx_tx 0 radio_mode_t.RX repeat_mode_t.SWEEP 40 ⟨0, 0, 0, 0⟩ 295).cfg_mid
      = (repeat_rx_tx 0 radio_mode_t.RX repeat_mode_t.SWEEP 40 ⟨0, 0, 0, 0⟩ 294).cfg_mid + 1 ∧
    (repeat_rx_tx 0 radio_mode_t.RX repeat_mode_t.SWEEP 40 ⟨0, 0, 0, 0⟩ 294).cfg_fine ≤ 32 :=
  have h := tuning_ranges_and_loop_variables 0 radio_mode_t.RX repeat_mode_t.SWEEP 40
    ⟨0, 0, 0, 0⟩ 294 _ _ _ rfl rfl rfl
  ⟨sweep_first_row_end.1, sweep_first_row_end.2.1, sweep_first_row_end.2.2.1,
    h.2.2.2.2.2.2.2.2.1 sweep_first_row_end.1, h.2.2.2.2.2.2.1.2.2⟩

/-! ### The buffer in RX runs -/

theorem step_tx_packet_rx (env : Env) (s : State) (h : env.radio_mode = radio_mode_t.RX) :
    (step env s).tx_packet = s.tx_packet := by
  obtain ⟨sl, sc, smid, sf, si, spc, spkt, str⟩ := s
  cases sl <;> simp only [step] <;> (try split_ifs) <;> rfl

theorem run_tx_packet_rx (env : Env) (n : Nat) (s : State) (h : env.radio_mode = radio_mode_t.RX) :
    (run env n s).tx_packet = s.tx_packet := by
  induction n generalizing s with
  | zero => rfl
  | succ n ih => rw [run, ih, step_tx_packet_rx env s h]

/-- An event of the trace of a run that is a radio call is the radio call of a visit. -/
theorem mem_trace_radio (env : Env) (tx_packet : Packet) (n : Nat) (e : Event)
    (h : e ∈ (run env n (init tx_packet)).trace) (hr : e.is_send = true ∨ e.is_receive = true) :
    ∃ k, e = radio_event env k := by
  refine mem_radio_calls_run env tx_packet n e ?_
  simp only [radio_calls, List.mem_filter]
  refine ⟨h, ?_⟩
  cases e <;> simp_all [Event.is_send, Event.is_receive]

/-- C13: an RX run synthesizes no packet content.  In every repeat mode and for every
`total_packets`, at every moment of an RX run the global `tx_packet` holds the four bytes
it held on entry and the trace has no `send_packet` call; and the trace of a TX run has
no `receive_packet` call.  After both receive calls of `repeat_rx_tx(RX, SWEEP, 2)`,
entered with `tx_packet = {9, 8, 7, 6}`, the buffer is still `{9, 8, 7, 6}`. -/
theorem rx_run_keeps_tx_packet (SOLAR_MODE : Nat) (repeat_mode : repeat_mode_t)
    (total_packets : Int) (tx_packet : Packet) (n : Nat) :
    (repeat_rx_tx SOLAR_MODE radio_mode_t.RX repeat_mode total_packets tx_packet n).tx_packet
      = tx_packet ∧
    (∀ e ∈ (repeat_rx_tx SOLAR_MODE radio_mode_t.RX repeat_mode total_packets tx_packet n).trace,
      e.is_send = false) ∧
    (∀ e ∈ (repeat_rx_tx SOLAR_MODE radio_mode_t.TX repeat_mode total_packets tx_packet n).trace,
      e.is_receive = false) ∧
    ((repeat_rx_tx 0 radio_mode_t.RX repeat_mode_t.SWEEP 2 ⟨9, 8, 7, 6⟩ 20).loc = Loc.returned ∧
      (repeat_rx_tx 0 radio_mode_t.RX repeat_mode_t.SWEEP 2 ⟨9, 8, 7, 6⟩ 20).trace
        = [Event.receive_packet 22 20 0, Event.receive_packet 22 20 1] ∧
      (repeat_rx_tx 0 radio_mode_t.RX repeat_mode_t.SWEEP 2 ⟨9, 8, 7, 6⟩ 20).tx_packet
        = ⟨9, 8, 7, 6⟩) := by
  refine ⟨run_tx_packet_rx _ n _ rfl, fun e he => ?_, fun e he => ?_, by decide⟩
  · cases hs : e.is_send with
    | false => rfl
    | true =>
      obtain ⟨k, rfl⟩ := mem_trace_radio _ tx_packet n e he (Or.inl hs)
      simp [radio_event, Event.is_send] at hs
  · cases hs : e.is_receive with
    | false => rfl
    | true =>
      obtain ⟨k, rfl⟩ := mem_trace_radio _ tx_packet n e he (Or.inr hs)
      simp [radio_event, Event.is_receive] at hs

/-! ### The power-mode calls -/

theorem radio_event_not_power (env : Env) (k : Nat) : (radio_event env k).is_power = false := by
  obtain ⟨sm, rm, pm, total⟩ := env
  cases rm <;> simp [radio_event, Event.is_power]

theorem radio_event_is_radio (env : Env) (k : Nat) :
    (radio_event env k).is_send = true ∨ (radio_event env k).is_receive = true := by
  obtain ⟨sm, rm, pm, total⟩ := env
  cases rm <;> simp [radio_event, Event.is_send, Event.is_receive]

/-- Without `SOLAR_MODE` the visits make no power-mode call. -/
theorem visits_trace_no_power (env : Env) (h : env.SOLAR_MODE = 0) (k : Nat) :
    ∀ e ∈ visits_trace env k, e.is_power = false := by
  induction k with
  | zero => intro e he; simp [visits_trace] at he
  | succ k ih =>
    intro e he
    simp only [visits_trace, visit_events, h, ne_eq, not_true_eq_false, if_false,
      List.nil_append, List.mem_append, List.mem_singleton] at he
    rcases he with he | rfl
    · exact ih e he
    · exact radio_event_not_power env k

/-- With `SOLAR_MODE` the calls of the visits come in threes: `low_power_mode`,
`normal_power_mode`, then the radio call of the visit. -/
theorem visits_trace_solar (env : Env) (h : env.SOLAR_MODE ≠ 0) (k : Nat) :
    (visits_trace env k).length = 3 * k ∧
    ∀ (i : Nat) (e : Event), (visits_trace env k)[i]? = some e →
      (i % 3 = 0 → e = Event.low_power_mode) ∧
      (i % 3 = 1 → e = Event.normal_power_mode) ∧
      (i % 3 = 2 → e = radio_event env (i / 3)) := by
  induction k with
  | zero => exact ⟨rfl, fun i e he => by simp [visits_trace] at he⟩
  | succ k ih =>
    obtain ⟨hlen, hpos⟩ := ih
    have hv : visits_trace env (k + 1)
        = visits_trace env k
          ++ [Event.low_power_mode, Event.normal_power_mode, radio_event env k] := by
      simp [visits_trace, visit_events, h]
    refine ⟨by rw [hv, List.length_append, hlen]; simp; omega, fun i e he => ?_⟩
    rw [hv] at he
    by_cases hi : i < 3 * k
    · rw [List.getElem?_append_left (by omega)] at he
      exact hpos i e he
    · rw [List.getElem?_append_right (by omega), hlen] at he
      obtain ⟨d, hd⟩ : ∃ d, i = 3 * k + d := ⟨i - 3 * k, by omega⟩
      subst hd
      rw [Nat.add_sub_cancel_left] at he
      match d, he with
      | 0, he =>
        simp only [List.getElem?_cons_zero, Option.some.injEq] at he
        subst he
        exact ⟨fun _ => rfl, fun h1 => by omega, fun h1 => by omega⟩
      | 1, he =>
        simp only [List.getElem?_cons_succ, List.getElem?_cons_zero, Option.some.injEq] at he
        subst he
        exact ⟨fun h1 => by omega, fun _ => rfl, fun h1 => by omega⟩
      | 2, he =>
        simp only [List.getElem?_cons_succ, List.getElem?_cons_zero, Option.some.injEq] at he
        subst he
        refine ⟨fun h1 => by omega, fun h1 => by omega, fun _ => ?_⟩
        congr 1
        omega
      | d + 3, he => simp at he

/-- C14: low-power toggling happens only when `SOLAR_MODE` is set.  With `SOLAR_MODE = 0`
no run of `repeat_rx_tx`, for any arguments, ever calls `low_power_mode` or
`normal_power_mode`.  With `SOLAR_MODE` non-zero the calls of a run come in threes, one
per tuning-point visit: `low_power_mode`, `normal_power_mode`, then the radio call; so
each radio call is preceded by exactly the two calls `low_power_mode`,
`normal_power_mode` of its visit, the later of them `normal_power_mode`.  Here `tr` is
the trace of the run after `n` transitions. -/
theorem power_calls_only_in_solar_mode (SOLAR_MODE : Nat) (radio_mode : radio_mode_t)
    (repeat_mode : repeat_mode_t) (total_packets : Int) (tx_packet : Packet) (n : Nat)
    (tr : List Event)
    (htr : tr
      = (repeat_rx_tx SOLAR_MODE radio_mode repeat_mode total_packets tx_packet n).trace) :
    (SOLAR_MODE = 0 → ∀ e ∈ tr, e.is_power = false) ∧
    (SOLAR_MODE ≠ 0 → ∀ (i : Nat) (e : Event), tr[i]? = some e →
      (i % 3 = 0 → e = Event.low_power_mode) ∧
      (i % 3 = 1 → e = Event.normal_power_mode) ∧
      (i % 3 = 2 → e.is_send = true ∨ e.is_receive = true)) ∧
    (SOLAR_MODE ≠ 0 → ∀ (i : Nat) (e : Event), tr[i]? = some e →
      (e.is_send = true ∨ e.is_receive = true) →
      2 ≤ i ∧ i % 3 = 2 ∧ tr[i - 2]? = some Event.low_power_mode ∧
        tr[i - 1]? = some Event.normal_power_mode) := by
  have hpos : SOLAR_MODE ≠ 0 → ∀ (i : Nat) (e : Event), tr[i]? = some e →
      (i % 3 = 0 → e = Event.low_power_mode) ∧
      (i % 3 = 1 → e = Event.normal_power_mode) ∧
      (i % 3 = 2 →
        e = radio_event ⟨SOLAR_MODE, radio_mode, repeat_mode, total_packets⟩ (i / 3)) := by
    intro hsm i e he
    obtain ⟨k, rest, hk⟩ :=
      trace_visits ⟨SOLAR_MODE, radio_mode, repeat_mode, total_packets⟩ tx_packet n
    have hlt : i < tr.length := by
      by_contra hge
      rw [List.getElem?_eq_none (by omega)] at he
      exact absurd he (by simp)
    have he2 : (visits_trace ⟨SOLAR_MODE, radio_mode, repeat_mode, total_packets⟩ k)[i]?
        = some e := by
      rw [hk, ← repeat_rx_tx, ← htr, List.getElem?_append_left hlt]
      exact he
    exact (visits_trace_solar ⟨SOLAR_MODE, radio_mode, repeat_mode, total_packets⟩ hsm k).2 i e
      he2
  refine ⟨fun h0 e he => ?_, fun hsm i e he => ?_, fun hsm i e he hr => ?_⟩
  · obtain ⟨k, rest, hk⟩ :=
      trace_visits ⟨SOLAR_MODE, radio_mode, repeat_mode, total_packets⟩ tx_packet n
    refine visits_trace_no_power ⟨SOLAR_MODE, radio_mode, repeat_mode, total_packets⟩ h0 k e ?_
    rw [hk, ← repeat_rx_tx, ← htr]
    exact List.mem_append_left _ he
  · obtain ⟨h0, h1, h2⟩ := hpos hsm i e he
    exact ⟨h0, h1, fun h => by rw [h2 h]; exact radio_event_is_radio _ _⟩
  · obtain ⟨h0, h1, h2⟩ := hpos hsm i e he
    have hmod : i % 3 = 2 := by
      have h3 : i % 3 < 3 := Nat.mod_lt _ (by decide)
      by_contra hne
      have hcase : i % 3 = 0 ∨ i % 3 = 1 := by omega
      rcases hcase with hc | hc
      · rw [h0 hc] at hr
        simp [Event.is_send, Event.is_receive] at hr
      · rw [h1 hc] at hr
        simp [Event.is_send, Event.is_receive] at hr
    have hlt : i < tr.length := by
      by_contra hge
      rw [List.getElem?_eq_none (by omega)] at he
      exact absurd he (by simp)
    have hi2 : 2 ≤ i := by omega
    refine ⟨hi2, hmod, ?_, ?_⟩
    · have hget : tr[i - 2]? = some (tr[i - 2]) := List.getElem?_eq_getElem (by omega)
      rw [hget, (hpos hsm (i - 2) _ hget).1 (by omega)]
    · have hget : tr[i - 1]? = some (tr[i - 1]) := List.getElem?_eq_getElem (by omega)
      rw [hget, (hpos hsm (i - 1) _ hget).2.1 (by omega)]

/-- Witness of C14: `repeat_rx_tx(RX, SWEEP, 2)` built with `SOLAR_MODE = 1` makes the
calls low, normal, receive at `(22, 20, 0)`, low, normal, receive at `(22, 20, 1)`; its
second receive call, at position 5 of the trace, has `low_power_mode` at position 3 and
`normal_power_mode` at position 4.  Built with `SOLAR_MODE = 0` the same run makes the
two receive calls only. -/
theorem power_calls_only_in_solar_mode_witness :
    (repeat_rx_tx 1 radio_mode_t.RX repeat_mode_t.SWEEP 2 ⟨0, 0, 0, 0⟩ 20).trace
      = [Event.low_power_mode, Event.normal_power_mode, Event.receive_packet 22 20 0,
         Event.low_power_mode, Event.normal_power_mode, Event.receive_packet 22 20 1] ∧
    (repeat_rx_tx 0 radio_mode_t.RX repeat_mode_t.SWEEP 2 ⟨0, 0, 0, 0⟩ 20).trace
      = [Event.receive_packet 22 20 0, Event.receive_packet 22 20 1] ∧
    (2 ≤ 5 ∧ 5 % 3 = 2 ∧
      (repeat_rx_tx 1 radio_mode_t.RX repeat_mode_t.SWEEP 2 ⟨0, 0, 0, 0⟩ 20).trace[5 - 2]?
        = some Event.low_power_mode ∧
      (repeat_rx_tx 1 radio_mode_t.RX repeat_mode_t.SWEEP 2 ⟨0, 0, 0, 0⟩ 20).trace[5 - 1]?
        = some Event.normal_power_mode) :=
  ⟨by decide, by decide,
    (power_calls_only_in_solar_mode 1 radio_mode_t.RX repeat_mode_t.SWEEP 2 ⟨0, 0, 0, 0⟩ 20 _
      rfl).2.2 (by decide) 5 (Event.receive_packet 22 20 1) (by decide) (by decide)⟩

end FreqSweep
